import Mathlib

/-
  Shallow embedding of the bold static linker (Rust sources under src/):
  context.rs, input_section.rs, output_section.rs, linker.rs, relocation.rs,
  utils.rs, config.rs.

  Conventions:
  * u64 values are Nat; arithmetic that wraps in Rust release builds is takes
    an explicit `% 2^64` (add64 / sub64 below).  i64 is Int with the cast
    functions i64ofU64 / u64ofI64.
  * Rust panics (unwrap on None, todo!, assert!, out-of-bounds indexing)
    are modelled by Option: `none` is a panic / abort of the link.
  * Rust HashMaps are modelled by association lists or id-keyed lists with
    first-match lookup; crucially, their iteration order is a parameter
    (the order of the modelling list), because std HashMap iteration order
    is arbitrary.
-/

namespace Bold

/-! ELF constants, as named in the `elf` crate's abi module. -/

def SHN_UNDEF : Nat := 0
def SHN_ABS : Nat := 0xfff1
def SHN_COMMON : Nat := 0xfff2
def STB_WEAK : Nat := 2
def SHF_WRITE : Nat := 1
def SHF_ALLOC : Nat := 2
def SHF_EXECINSTR : Nat := 4
def SHF_TLS : Nat := 0x400
def SHT_NOBITS : Nat := 8
def PAGE_SIZE : Nat := 0x1000

def R_X86_64_NONE : Nat := 0
def R_X86_64_64 : Nat := 1
def R_X86_64_PC32 : Nat := 2
def R_X86_64_GOT32 : Nat := 3
def R_X86_64_PLT32 : Nat := 4
def R_X86_64_32 : Nat := 10
def R_X86_64_32S : Nat := 11
def R_X86_64_16 : Nat := 12
def R_X86_64_8 : Nat := 14
def R_X86_64_GOTTPOFF : Nat := 22
def R_X86_64_GOTPCRELX : Nat := 41

/-! Machine integer helpers. -/

def U64LIM : Nat := 2 ^ 64

/-- Wrapping u64 addition. -/
def add64 (x y : Nat) : Nat := (x + y) % U64LIM

/-- Wrapping u64 subtraction. -/
def sub64 (x y : Nat) : Nat := (x % U64LIM + (U64LIM - y % U64LIM)) % U64LIM

/-- Bitwise complement on u64. -/
def not64 (x : Nat) : Nat := U64LIM - 1 - x % U64LIM

/-- Bitwise and on u64. -/
def land64 (x y : Nat) : Nat := Nat.land (x % U64LIM) (y % U64LIM)

/-- Reinterpret a u64 bit pattern as an i64 (`x as i64`). -/
def i64ofU64 (x : Nat) : Int :=
  if x % U64LIM < 2 ^ 63 then (x % U64LIM : Int) else (x % U64LIM : Int) - (U64LIM : Int)

/-- Reinterpret an i64 value as a u64 bit pattern (`x as u64`). -/
def u64ofI64 (x : Int) : Nat := (x % (U64LIM : Int)).toNat

/-- utils.rs `align_to`: `(val + align - 1) & !(align - 1)` on u64. -/
def align_to (val align : Nat) : Nat :=
  land64 (add64 val (sub64 align 1)) (not64 (sub64 align 1))

/-- `u64::to_le_bytes`: the eight little-endian bytes of a u64 value. -/
def to_le_bytes (v : Nat) : List Nat :=
  (List.range 8).map (fun i => v / 256 ^ i % 256)

/-- `buf[ofs..ofs+data.len()].copy_from_slice(data)` on a byte list. -/
def storeBytes (buf : List Nat) (ofs : Nat) (data : List Nat) : List Nat :=
  match buf, ofs, data with
  | [], _, _ => []
  | b :: rest, Nat.succ n, data => b :: storeBytes rest n data
  | _ :: rest, 0, v :: vs => v :: storeBytes rest 0 vs
  | buf, 0, [] => buf

/-- Rust `str::starts_with` on char lists. -/
def starts_with_chars : List Char → List Char → Bool
  | _, [] => true
  | [], _ :: _ => false
  | c :: cs, d :: ds => c = d && starts_with_chars cs ds

/-- Rust `str::starts_with`. -/
def starts_with (s pat : String) : Bool := starts_with_chars s.data pat.data

/-! Log events emitted through the `log` crate by the modelled code. -/

inductive LogMsg where
  | debugOverrideWeak : String → LogMsg
  | errorDuplicate : String → LogMsg
  | debugAddGlobal : String → LogMsg
  | warnUnsupportedReloc : Nat → LogMsg
deriving DecidableEq

/-! Symbols (input_section.rs). -/

/-- The parsed ELF symbol record (the elf crate's `Symbol` data). -/
structure ElfSymRec where
  st_name : Nat
  st_bind : Nat
  st_symtype : Nat
  st_vis : Nat
  st_shndx : Nat
  st_value : Nat
  st_size : Nat
deriving DecidableEq

/-- elf crate: a symbol is undefined iff its `st_shndx` is `SHN_UNDEF`. -/
def ElfSymRec.is_undefined (s : ElfSymRec) : Bool := s.st_shndx = SHN_UNDEF

/-- input_section.rs `ElfSymbol`: name (version suffix stripped) + record. -/
structure ElfSymbol where
  name : String
  sym : ElfSymRec
deriving DecidableEq

def ElfSymbol.is_abs (s : ElfSymbol) : Bool := s.sym.st_shndx = SHN_ABS

def ElfSymbol.is_common (s : ElfSymbol) : Bool := s.sym.st_shndx = SHN_COMMON

def ElfSymbol.is_weak (s : ElfSymbol) : Bool := s.sym.st_bind = STB_WEAK

/-- linker.rs `Elf64_Sym` as written into `.symtab`. -/
structure Elf64Sym where
  st_name : Nat
  st_info : Nat
  st_other : Nat
  st_shndx : Nat
  st_value : Nat
  st_size : Nat
deriving DecidableEq

def Elf64Sym.zero : Elf64Sym := ⟨0, 0, 0, 0, 0, 0⟩

/-- input_section.rs `ElfSymbol::get`. -/
def ElfSymbol.get (s : ElfSymbol) : Elf64Sym :=
  { st_name := s.sym.st_name
    st_info := Nat.lor (Nat.shiftLeft s.sym.st_bind 4) s.sym.st_symtype
    st_other := s.sym.st_vis
    st_shndx := s.sym.st_shndx
    st_value := s.sym.st_value
    st_size := s.sym.st_size }

/-- input_section.rs `Symbol` (the shared, resolvable symbol slot). -/
structure Symbol where
  name : String
  file : Option Nat
  esym : ElfSymbol
  global : Bool
deriving DecidableEq

def Symbol.should_write (_s : Symbol) : Bool := true

def Symbol.is_global (s : Symbol) : Bool := s.global

/-! The global symbol table (context.rs), a name-keyed HashMap.
    Modelled as an association list where insert prepends; lookup takes
    the first (most recent) binding, which is extensionally the HashMap
    insert/get behaviour. -/

abbrev SymTable := List (String × Symbol)

def SymTable.get (t : SymTable) (name : String) : Option Symbol :=
  (t.find? (fun p => p.1 = name)).map (fun p => p.2)

def SymTable.insert (t : SymTable) (name : String) (s : Symbol) : SymTable :=
  (name, s) :: t

/-- context.rs `Context::add_global_symbol`.  Returns the updated table and
    the log messages; `none` models the `assert!(sym.is_global())` failure.
    Note that after logging, the source runs
    `self.global_symbols.insert(name, symbol)` unconditionally. -/
def add_global_symbol (t : SymTable) (symbol : Symbol) :
    Option (SymTable × List LogMsg) :=
  if ¬ symbol.is_global then none
  else if symbol.esym.sym.is_undefined then some (t, [])
  else
    let name := symbol.name
    let logs :=
      match t.get name with
      | some dup =>
          if dup.esym.is_weak then [LogMsg.debugOverrideWeak name]
          else [LogMsg.errorDuplicate name]
      | none => [LogMsg.debugAddGlobal name]
    some (t.insert name symbol, logs)

/-! Relocations (relocation.rs). -/

structure Rela where
  r_offset : Nat
  r_type : Nat
  r_addend : Int
deriving DecidableEq

/-- Result of relocation.rs `relocation_value`: `panic` models the `todo!`
    arm, `skip` models `None` and `value` models `Some`. -/
inductive RelocResult where
  | panic : RelocResult
  | skip : RelocResult
  | value : Nat → RelocResult
deriving DecidableEq

/-- relocation.rs `relocation_value`. -/
def relocation_value (symbol_addr isec_addr : Nat) (rela : Rela) : RelocResult :=
  let s := symbol_addr
  let a := rela.r_addend
  let p := add64 isec_addr rela.r_offset
  if rela.r_type = R_X86_64_NONE then RelocResult.skip
  else if rela.r_type = R_X86_64_PC32 ∨ rela.r_type = R_X86_64_PLT32 then
    RelocResult.value (u64ofI64 (i64ofU64 s + a - i64ofU64 p))
  else if rela.r_type = R_X86_64_8 ∨ rela.r_type = R_X86_64_16
      ∨ rela.r_type = R_X86_64_32 ∨ rela.r_type = R_X86_64_32S
      ∨ rela.r_type = R_X86_64_64 then
    RelocResult.value (u64ofI64 (i64ofU64 s + a))
  else if rela.r_type = R_X86_64_GOTTPOFF ∨ rela.r_type = R_X86_64_GOTPCRELX then
    RelocResult.value 0
  else RelocResult.panic

/-- The warnings logged by `relocation_value` (only the GOT-related arm
    that is reached without panicking logs anything). -/
def relocation_value_log (rela : Rela) : List LogMsg :=
  if rela.r_type = R_X86_64_GOTTPOFF ∨ rela.r_type = R_X86_64_GOTPCRELX then
    [LogMsg.warnUnsupportedReloc rela.r_type]
  else []

/-- relocation.rs `relocation_size`; `none` models the `todo!` arm. -/
def relocation_size (rela : Rela) : Option Nat :=
  if rela.r_type = R_X86_64_NONE then some 0
  else if rela.r_type = R_X86_64_8 then some 1
  else if rela.r_type = R_X86_64_16 then some 2
  else if rela.r_type = R_X86_64_32 then some 4
  else if rela.r_type = R_X86_64_32S then some 4
  else if rela.r_type = R_X86_64_64 then some 8
  else if rela.r_type = R_X86_64_PC32 then some 4
  else if rela.r_type = R_X86_64_GOT32 then some 4
  else if rela.r_type = R_X86_64_PLT32 then some 4
  else if rela.r_type = R_X86_64_GOTTPOFF then some 4
  else if rela.r_type = R_X86_64_GOTPCRELX then some 4
  else none

/-- relocation.rs `RelValue`. -/
structure RelValue where
  file_ofs : Nat
  value : Nat
  size : Nat
deriving DecidableEq

/-! Input sections (input_section.rs). -/

structure ElfSection where
  name : String
  sh_type : Nat
  sh_flags : Nat
  sh_size : Nat
  sh_addralign : Nat
  data : List Nat
deriving DecidableEq

/-- input_section.rs `ElfRela`: relocation record plus resolved symbol. -/
structure ElfRela where
  erela : Rela
  symbol : Symbol
deriving DecidableEq

structure InputSection where
  id : Nat
  elf_section : ElfSection
  elf_relas : List ElfRela
  offset : Option Nat
  output_section : Option Nat
deriving DecidableEq

def InputSection.get_name (s : InputSection) : String := s.elf_section.name

/-- input_section.rs `InputSection::get_size`: the header's `sh_size`,
    regardless of the stored data length (bss/tbss have empty data). -/
def InputSection.get_size (s : InputSection) : Nat := s.elf_section.sh_size

/-- input_section.rs `InputSection::copy_buf`.  `none` models a panic:
    unset offset, or the slice length mismatch / out-of-range that
    `copy_from_slice` would raise.  Sections with empty data (bss, tbss)
    skip the copy and leave the buffer unchanged. -/
def InputSection.copy_buf (isec : InputSection) (buf : List Nat) : Option (List Nat) := do
  let offset ← isec.offset
  let size := isec.get_size
  let data := isec.elf_section.data
  if data = [] then some buf
  else if data.length = size ∧ offset + size ≤ buf.length then
    some (storeBytes buf offset data)
  else none

/-- The Context's id-keyed InputSection pool (a HashMap in context.rs);
    only get/update by id is used, so a list with first-match lookup. -/
abbrev IsecPool := List InputSection

def IsecPool.get_isec (pool : IsecPool) (id : Nat) : Option InputSection :=
  pool.find? (fun s => s.id = id)

def IsecPool.set_isec_offset (pool : IsecPool) (id : Nat) (ofs : Nat) : IsecPool :=
  pool.map (fun s => if s.id = id then { s with offset := some ofs } else s)

def IsecPool.set_isec_osec (pool : IsecPool) (id : Nat) (osec : Nat) : IsecPool :=
  pool.map (fun s => if s.id = id then { s with output_section := some osec } else s)

/-! Object files (input_section.rs `ObjectFile`), post-parse view. -/

structure ObjectFile where
  id : Nat
  first_global : Nat
  elf_symbols : List ElfSymbol
  input_sections : List (Option Nat)
  symbols : List (Option Symbol)
deriving DecidableEq

/-! Output sections and chunks (output_section.rs). -/

structure OutputSection where
  id : Nat
  name : String
  input_sections : List Nat
  sh_type : Nat
  sh_flags : Nat
deriving DecidableEq

structure Shdr where
  sh_name : Nat
  sh_type : Nat
  sh_flags : Nat
  sh_addr : Nat
  sh_offset : Nat
  sh_size : Nat
  sh_link : Nat
  sh_info : Nat
  sh_addralign : Nat
  sh_entsize : Nat
deriving DecidableEq

def Shdr.zero : Shdr := ⟨0, 0, 0, 0, 0, 0, 0, 0, 0, 0⟩

structure ChunkInfo where
  shdr : Shdr
  shndx : Option Nat
deriving DecidableEq

/-- output_section.rs `ChunkInfo::should_be_loaded`. -/
def ChunkInfo.should_be_loaded (c : ChunkInfo) : Bool :=
  Nat.land c.shdr.sh_flags SHF_ALLOC ≠ 0

/-- output_section.rs `OutputChunk` (tagged union over chunk kinds). -/
inductive OutputChunk where
  | ehdr : ChunkInfo → OutputChunk
  | shdr : ChunkInfo → OutputChunk
  | phdr : ChunkInfo → OutputChunk
  | Section : Nat → ChunkInfo → OutputChunk
  | strtab : ChunkInfo → OutputChunk
  | symtab : ChunkInfo → OutputChunk
  | shstrtab : ChunkInfo → OutputChunk
deriving DecidableEq

def OutputChunk.get_common : OutputChunk → ChunkInfo
  | .ehdr c => c
  | .shdr c => c
  | .phdr c => c
  | .Section _ c => c
  | .strtab c => c
  | .symtab c => c
  | .shstrtab c => c

def OutputChunk.is_header : OutputChunk → Bool
  | .ehdr _ => true
  | .shdr _ => true
  | .phdr _ => true
  | _ => false

/-- Write a new ChunkInfo back into the chunk (models mutation through
    `get_common_mut`). -/
def OutputChunk.set_common : OutputChunk → ChunkInfo → OutputChunk
  | .ehdr _, c => .ehdr c
  | .shdr _, c => .shdr c
  | .phdr _, c => .phdr c
  | .Section id _, c => .Section id c
  | .strtab _, c => .strtab c
  | .symtab _, c => .symtab c
  | .shstrtab _, c => .shstrtab c

/-- The member walk inside output_section.rs `OutputChunk::set_offset`
    (Section arm): assign each member InputSection the running file
    offset, advancing by that member's size; returns the final offset. -/
def set_isec_offsets (pool : IsecPool) (members : List Nat) (offset : Nat) :
    Option (IsecPool × Nat) :=
  match members with
  | [] => some (pool, offset)
  | m :: rest => do
      let isec ← pool.get_isec m
      let pool := pool.set_isec_offset m offset
      set_isec_offsets pool rest (add64 offset isec.get_size)

/-- output_section.rs `OutputChunk::set_offset`.  For a Section chunk it
    walks the members and records `sh_size` as the distance covered; every
    arm records `sh_offset`. -/
def OutputChunk.set_offset (osecs : List OutputSection) (pool : IsecPool)
    (chunk : OutputChunk) (offset : Nat) : Option (IsecPool × OutputChunk) :=
  match chunk with
  | .Section id common => do
      let osec ← osecs.find? (fun o => o.id = id)
      let (pool', end_ofs) ← set_isec_offsets pool osec.input_sections offset
      some (pool', .Section id
        { common with shdr :=
            { common.shdr with sh_offset := offset, sh_size := sub64 end_ofs offset } })
  | c =>
      let common := c.get_common
      some (pool, c.set_common { common with shdr := { common.shdr with sh_offset := offset } })

/-! Section binning (context.rs and linker.rs `bin_input_sections`). -/

def COMMON_SECTION_NAMES : List String :=
  [".text", ".data", ".data.rel.ro", ".rodata", ".bss", ".bss.rel.ro",
   ".init_array", ".fini_array", ".tbss", ".tdata"]

/-- output_section.rs `get_output_section_name`: scan the canonical names
    in their fixed order, returning the first that the input name equals
    or extends with a dot.  `none` models the `panic!("Unknown section")`. -/
def get_output_section_name (input_section : String) : Option String :=
  COMMON_SECTION_NAMES.find?
    (fun n => input_section = n || starts_with input_section (n ++ "."))

/-- context.rs `Context::get_or_create_output_section_mut`: find an output
    section matching the (name, sh_type, sh_flags) triple, or create one.
    Returns (sections, next fresh id, id of the found or created section). -/
def get_or_create_output_section (osecs : List OutputSection) (next_id : Nat)
    (name : String) (sh_type : Nat) (sh_flags : Nat) :
    List OutputSection × Nat × Nat :=
  match osecs.find? (fun s => s.name = name && s.sh_type = sh_type && s.sh_flags = sh_flags) with
  | some s => (osecs, next_id, s.id)
  | none =>
      (osecs ++ [{ id := next_id, name := name, input_sections := [],
                   sh_type := sh_type, sh_flags := sh_flags }],
       next_id + 1, next_id)

/-- The evolving state of `Linker::bin_input_sections`. -/
structure BinState where
  isecs : IsecPool
  osecs : List OutputSection
  next_osec_id : Nat
  chunks : List Nat
deriving DecidableEq

/-- The per-input-section loop of linker.rs `Linker::bin_input_sections`. -/
def bin_go (st : BinState) : List Nat → Option BinState
  | [] => some st
  | isec_id :: rest => do
      let isec ← st.isecs.get_isec isec_id
      let name ← get_output_section_name isec.get_name
      let (osecs, next, osec_id) :=
        get_or_create_output_section st.osecs st.next_osec_id name
          isec.elf_section.sh_type isec.elf_section.sh_flags
      let osec ← osecs.find? (fun s => s.id = osec_id)
      let chunks := if osec.input_sections = [] then st.chunks ++ [osec_id] else st.chunks
      let osecs := osecs.map (fun s =>
        if s.id = osec_id then { s with input_sections := s.input_sections ++ [isec_id] } else s)
      let isecs := st.isecs.set_isec_osec isec_id osec_id
      bin_go { isecs := isecs, osecs := osecs, next_osec_id := next, chunks := chunks } rest

/-- The flattening loop at the top of `Linker::bin_input_sections`: all
    retained input sections, in the order the files are iterated and, per
    file, in ELF-index order. -/
def collect_isec_ids (files : List ObjectFile) : List Nat :=
  (files.map (fun f => f.input_sections.filterMap id)).flatten

/-- linker.rs `Linker::bin_input_sections`.  The `files` argument is the
    order in which `Context::files_mut` (a HashMap iterator) yields the
    object files; std HashMap makes that order arbitrary. -/
def bin_input_sections (files : List ObjectFile) (isecs : IsecPool) : Option BinState :=
  bin_go { isecs := isecs, osecs := [], next_osec_id := 0, chunks := [] }
    (collect_isec_ids files)

/-! Layout (linker.rs `Linker::assign_osec_offsets`). -/

/-- The congruence fix-up inside `assign_osec_offsets`: bump `file_ofs`
    so that `file_ofs mod PAGE_SIZE == vaddr mod PAGE_SIZE`, rolling over
    a page boundary when the target residue is behind. -/
def page_fix (file_ofs vaddr : Nat) : Nat :=
  if vaddr % PAGE_SIZE > file_ofs % PAGE_SIZE then
    add64 file_ofs (vaddr % PAGE_SIZE - file_ofs % PAGE_SIZE)
  else if vaddr % PAGE_SIZE < file_ofs % PAGE_SIZE then
    add64 (align_to file_ofs PAGE_SIZE) (vaddr % PAGE_SIZE)
  else file_ofs

/-- The `sh_addr` recording inside the `assign_osec_offsets` loop:
    `if chunk.sh_flags & SHF_ALLOC != 0 { chunk.sh_addr = vaddr }`. -/
def layout_record_addr (chunk : OutputChunk) (vaddr : Nat) : OutputChunk :=
  if Nat.land chunk.get_common.shdr.sh_flags SHF_ALLOC ≠ 0 then
    chunk.set_common
      { chunk.get_common with shdr := { chunk.get_common.shdr with sh_addr := vaddr } }
  else chunk

/-- The advance at the end of the `assign_osec_offsets` loop body:
    `file_ofs` skips SHT_NOBITS chunks, `vaddr` skips SHF_TLS chunks. -/
def layout_advance (chunk : OutputChunk) (file_ofs vaddr : Nat) : Nat × Nat :=
  let is_bss := chunk.get_common.shdr.sh_type = SHT_NOBITS
  let file_ofs := if is_bss then file_ofs else add64 file_ofs chunk.get_common.shdr.sh_size
  let is_tbss := Nat.land chunk.get_common.shdr.sh_flags SHF_TLS ≠ 0
  let vaddr := if is_tbss then vaddr else add64 vaddr chunk.get_common.shdr.sh_size
  (file_ofs, vaddr)

/-- One iteration of the `assign_osec_offsets` chunk loop: page-snap the
    vaddr of loadable chunks, restore the file-offset / vaddr congruence
    modulo PAGE_SIZE, align both to `sh_addralign`, record the offset (and
    address if allocated), then advance past the chunk. -/
def layout_step (osecs : List OutputSection) (pool : IsecPool)
    (chunk : OutputChunk) (file_ofs vaddr : Nat) :
    Option (IsecPool × OutputChunk × Nat × Nat) := do
  let vaddr := if chunk.get_common.should_be_loaded then align_to vaddr PAGE_SIZE else vaddr
  let file_ofs := page_fix file_ofs vaddr
  let sh_addralign := chunk.get_common.shdr.sh_addralign
  let file_ofs := align_to file_ofs sh_addralign
  let vaddr := align_to vaddr sh_addralign
  let (pool', chunk) ← chunk.set_offset osecs pool file_ofs
  let chunk := layout_record_addr chunk vaddr
  let fv := layout_advance chunk file_ofs vaddr
  some (pool', chunk, fv.1, fv.2)

def assign_osec_offsets_go (osecs : List OutputSection) (pool : IsecPool) :
    List OutputChunk → Nat → Nat → Option (IsecPool × List OutputChunk × Nat)
  | [], file_ofs, _vaddr => some (pool, [], file_ofs)
  | chunk :: rest, file_ofs, vaddr => do
      let (pool', chunk', file_ofs', vaddr') ← layout_step osecs pool chunk file_ofs vaddr
      let (pool'', rest', final) ← assign_osec_offsets_go osecs pool' rest file_ofs' vaddr'
      some (pool'', chunk' :: rest', final)

/-- linker.rs `Linker::assign_osec_offsets`: walk the chunks with
    `file_ofs` from 0 and `vaddr` from the image base (0x400000). -/
def assign_osec_offsets (image_base : Nat) (osecs : List OutputSection)
    (pool : IsecPool) (chunks : List OutputChunk) :
    Option (IsecPool × List OutputChunk × Nat) :=
  assign_osec_offsets_go osecs pool chunks 0 image_base

/-! The linker state and the address / relocation-data functions
    (linker.rs). -/

structure Linker where
  files : List ObjectFile
  isecs : IsecPool
  osecs : List OutputSection
  chunks : List OutputChunk
deriving DecidableEq

def Linker.get_file (l : Linker) (id : Nat) : Option ObjectFile :=
  l.files.find? (fun f => f.id = id)

/-- linker.rs `Linker::get_common_from_osec`. -/
def Linker.get_common_from_osec (l : Linker) (id : Nat) : Option ChunkInfo :=
  (l.chunks.find? (fun c =>
    match c with
    | .Section i _ => i = id
    | _ => false)).map OutputChunk.get_common

/-- linker.rs `Linker::get_isec_addr`:
    `osec.sh_addr + (isec_file_ofs - osec.sh_offset)` with the input
    section's offset defaulting to 0 when unset (`unwrap_or(0)`).
    `none` models a panic in the lookups. -/
def Linker.get_isec_addr (l : Linker) (id : Nat) : Option Nat := do
  let isec ← l.isecs.get_isec id
  let isec_file_ofs := isec.offset.getD 0
  let osec_id ← isec.output_section
  let osec_common ← l.get_common_from_osec osec_id
  some (add64 osec_common.shdr.sh_addr (sub64 isec_file_ofs osec_common.shdr.sh_offset))

/-- linker.rs `Linker::get_symbol_addr`.  The outer Option models panics
    (`symbol.file.unwrap()`, missing file, out-of-range section index);
    the inner Option is the Rust return value, `none` when the symbol's
    section slot holds no InputSection. -/
def Linker.get_symbol_addr (l : Linker) (symbol : Symbol) : Option (Option Nat) := do
  let fid ← symbol.file
  let file ← l.get_file fid
  let shndx := symbol.esym.sym.st_shndx
  let slot ← file.input_sections.get? shndx
  match slot with
  | none => some none
  | some isec_id => do
      let isec_addr ← l.get_isec_addr isec_id
      some (some (add64 isec_addr symbol.esym.sym.st_value))

/-- The relocation loop of linker.rs `Linker::get_relocation_data` over
    one input section's relocation list.  The `.unwrap()` on the symbol
    address and the `todo!` inside `relocation_value` are panics. -/
def relas_values (l : Linker) (isec_addr : Nat) (isec : InputSection) :
    List ElfRela → Option (List RelValue)
  | [] => some []
  | rel :: rest => do
      let sa ← l.get_symbol_addr rel.symbol
      let symbol_addr ← sa
      match relocation_value symbol_addr isec_addr rel.erela with
      | .panic => none
      | .skip => relas_values l isec_addr isec rest
      | .value v => do
          let isec_file_ofs ← isec.offset
          let size ← relocation_size rel.erela
          let rest_vals ← relas_values l isec_addr isec rest
          some ({ file_ofs := add64 isec_file_ofs rel.erela.r_offset,
                  value := v, size := size } :: rest_vals)

/-- The per-file loop of `Linker::get_relocation_data` over the file's
    input-section slots. -/
def isecs_values (l : Linker) : List (Option Nat) → Option (List RelValue)
  | [] => some []
  | none :: rest => isecs_values l rest
  | some isec_id :: rest => do
      let isec_addr ← l.get_isec_addr isec_id
      let isec ← l.isecs.get_isec isec_id
      let vals ← relas_values l isec_addr isec isec.elf_relas
      let rest_vals ← isecs_values l rest
      some (vals ++ rest_vals)

/-- The outer loop of `Linker::get_relocation_data` over the files, in the
    order the Context's HashMap yields them. -/
def files_values (l : Linker) : List ObjectFile → Option (List RelValue)
  | [] => some []
  | f :: rest => do
      let vals ← isecs_values l f.input_sections
      let rest_vals ← files_values l rest
      some (vals ++ rest_vals)

/-- linker.rs `Linker::get_relocation_data`. -/
def Linker.get_relocation_data (l : Linker) : Option (List RelValue) :=
  files_values l l.files

/-- One buffer patch of linker.rs `Linker::relocation`:
    `buf[file_ofs..file_ofs+size].copy_from_slice(&value.to_le_bytes()[0..size])`.
    `none` models the slicing panic when out of range. -/
def apply_rel (buf : List Nat) (rv : RelValue) : Option (List Nat) :=
  if rv.file_ofs + rv.size ≤ buf.length ∧ rv.size ≤ 8 then
    some (storeBytes buf rv.file_ofs ((to_le_bytes rv.value).take rv.size))
  else none

/-- linker.rs `Linker::relocation`: apply every RelValue to the buffer. -/
def relocation_apply (buf : List Nat) : List RelValue → Option (List Nat)
  | [] => some buf
  | rv :: rest => do
      let buf' ← apply_rel buf rv
      relocation_apply buf' rest

/-! Symbol table emission (linker.rs `Linker::get_symtab`). -/

/-- The filter of linker.rs `Linker::get_symbols` for one file: symbol
    slots that are present, defined in this very file, and writable. -/
def file_write_symbols (f : ObjectFile) : List Symbol :=
  f.symbols.filterMap (fun s =>
    match s with
    | some sym =>
        if sym.file = some f.id ∧ sym.should_write then some sym else none
    | none => none)

/-- linker.rs `Linker::get_symbols` (files in HashMap iteration order). -/
def Linker.get_symbols (l : Linker) : List Symbol :=
  (l.files.map file_write_symbols).flatten

/-- UTF-8 bytes of a name, as appended to `.strtab`. -/
def strBytes (s : String) : List Nat := s.toUTF8.toList.map (fun b => b.toNat)

/-- The loop body of linker.rs `Linker::get_symtab` for one emitted
    symbol: clone the ELF record, point `st_name` at the running strtab
    offset, keep absolute symbols unchanged, panic on common symbols, and
    otherwise recompute `st_value` (falling back to 0) and `st_shndx` from
    the output section containing the symbol's input section. -/
def emit_symbol (l : Linker) (sym : Symbol) (strtab_len : Nat) : Option Elf64Sym := do
  let esym := { sym.esym.get with st_name := strtab_len }
  if sym.esym.is_abs then
    some esym
  else if sym.esym.is_common then
    none
  else do
    let sa ← l.get_symbol_addr sym
    let st_value := sa.getD 0
    let fid ← sym.file
    let file ← l.get_file fid
    let slot ← file.input_sections.get? sym.esym.sym.st_shndx
    let isec_id ← slot
    let isec ← l.isecs.get_isec isec_id
    let osec_id ← isec.output_section
    let common ← l.get_common_from_osec osec_id
    let n ← common.shndx
    some { esym with st_value := st_value, st_shndx := n % 65536 }

/-- The fold of linker.rs `Linker::get_symtab` over the emitted symbols,
    accumulating the symtab records and the strtab bytes. -/
def symtab_go (l : Linker) : List Symbol → List Elf64Sym → List Nat →
    Option (List Elf64Sym × List Nat)
  | [], syms, strs => some (syms, strs)
  | sym :: rest, syms, strs => do
      let esym ← emit_symbol l sym strs.length
      symtab_go l rest (syms ++ [esym]) (strs ++ strBytes sym.name ++ [0])

/-- linker.rs `Linker::get_symtab`: both tables start with a null entry. -/
def Linker.get_symtab (l : Linker) : Option (List Elf64Sym × List Nat) :=
  symtab_go l l.get_symbols [Elf64Sym.zero] [0]

/-- Statement vocabulary: the sizes of the input sections named by `ids`,
    as the layout walk reads them (`InputSection::get_size`, i.e. the
    header's `sh_size`). -/
def member_sizes (pool : IsecPool) (ids : List Nat) : List Nat :=
  ids.map (fun i => ((pool.get_isec i).map InputSection.get_size).getD 0)

/-- Statement vocabulary: `S + A - P` reduced to a u64 bit pattern. -/
def reloc_pc_value (S : Nat) (a : Int) (p : Nat) : Nat :=
  (((S : Int) + a - (p : Int)) % (U64LIM : Int)).toNat

/-- Statement vocabulary: `S + A` reduced to a u64 bit pattern. -/
def reloc_abs_value (S : Nat) (a : Int) : Nat :=
  (((S : Int) + a) % (U64LIM : Int)).toNat

/-! ### Concrete instances used by specific theorems -/

/-- A non-weak defined global symbol named `main` (as registered first). -/
def mainSymA : Symbol :=
  { name := "main", file := some 0,
    esym := { name := "main", sym := ⟨1, 1, 0, 0, 1, 0, 0⟩ }, global := true }

/-- A second, distinct non-weak defined global symbol named `main`. -/
def mainSymB : Symbol :=
  { name := "main", file := some 1,
    esym := { name := "main", sym := ⟨1, 1, 0, 0, 1, 7, 0⟩ }, global := true }

/-- An undefined global symbol (st_shndx = SHN_UNDEF). -/
def undefSym : Symbol :=
  { name := "foo", file := none,
    esym := { name := "foo", sym := ⟨1, 1, 0, 0, 0, 0, 0⟩ }, global := true }

/-- A `.text` input section contributed by the first object file. -/
def textIsecA : InputSection :=
  { id := 1, elf_section := { name := ".text", sh_type := 1, sh_flags := 6,
                              sh_size := 16, sh_addralign := 16, data := [] },
    elf_relas := [], offset := none, output_section := none }

/-- A `.text` input section contributed by the second object file. -/
def textIsecB : InputSection :=
  { id := 2, elf_section := { name := ".text", sh_type := 1, sh_flags := 6,
                              sh_size := 8, sh_addralign := 16, data := [] },
    elf_relas := [], offset := none, output_section := none }

/-- An input section named `.data.rel.ro`. -/
def dataRelRoIsec : InputSection :=
  { id := 3, elf_section := { name := ".data.rel.ro", sh_type := 1, sh_flags := 3,
                              sh_size := 8, sh_addralign := 8, data := [] },
    elf_relas := [], offset := none, output_section := none }

/-- Object file owning `textIsecA`. -/
def objA : ObjectFile :=
  { id := 0, first_global := 0, elf_symbols := [], input_sections := [some 1], symbols := [] }

/-- Object file owning `textIsecB`. -/
def objB : ObjectFile :=
  { id := 1, first_global := 0, elf_symbols := [], input_sections := [some 2], symbols := [] }

/-- Object file owning `dataRelRoIsec`. -/
def objC : ObjectFile :=
  { id := 2, first_global := 0, elf_symbols := [], input_sections := [some 3], symbols := [] }

/-- Input chunk list for a concrete layout run: an Ehdr chunk and an
    allocated Strtab chunk. -/
def c7Chunks : List OutputChunk :=
  [OutputChunk.ehdr ⟨{ Shdr.zero with sh_size := 64, sh_addralign := 1 }, none⟩,
   OutputChunk.strtab ⟨{ Shdr.zero with sh_flags := 2, sh_addralign := 16, sh_size := 10 }, some 1⟩]

/-- The Ehdr chunk after the concrete layout run. -/
def c7OutEhdr : OutputChunk :=
  OutputChunk.ehdr ⟨{ Shdr.zero with sh_size := 64, sh_addralign := 1 }, none⟩

/-- The allocated Strtab chunk after the concrete layout run. -/
def c7OutStrtab : OutputChunk :=
  OutputChunk.strtab
    ⟨{ Shdr.zero with
         sh_flags := 2, sh_addralign := 16, sh_size := 10,
         sh_offset := 4096, sh_addr := 4198400 },
      some 1⟩

/-- The pool after the concrete member walk for the C9 witness. -/
def c9PoolAfter : IsecPool :=
  [{ textIsecA with offset := some 4096 }, { textIsecB with offset := some 4112 }]

/-- Input section for the C8 witness (file offset 0x1010, in osec 7). -/
def c8Isec : InputSection :=
  { id := 5, elf_section := { name := ".text", sh_type := 1, sh_flags := 6,
                              sh_size := 16, sh_addralign := 16, data := [] },
    elf_relas := [], offset := some 0x1010, output_section := some 7 }

/-- Object file for the C8 witness. -/
def c8File : ObjectFile :=
  { id := 0, first_global := 1, elf_symbols := [],
    input_sections := [none, some 5], symbols := [] }

/-- Chunk info of output section 7 for the C8 witness. -/
def c8Common : ChunkInfo :=
  ⟨{ Shdr.zero with sh_type := 1, sh_flags := 6, sh_addr := 0x401000,
                    sh_offset := 0x1000, sh_addralign := 16 }, some 3⟩

/-- Linker state for the C8 witness. -/
def c8Linker : Linker :=
  { files := [c8File], isecs := [c8Isec], osecs := [],
    chunks := [OutputChunk.Section 7 c8Common] }

/-- A defined, non-absolute global symbol living in ELF section 1 of the
    C8 witness file, with raw st_value 4. -/
def c8Sym : Symbol :=
  { name := "foo", file := some 0,
    esym := { name := "foo", sym := ⟨1, 1, 0, 0, 1, 4, 0⟩ }, global := true }

/-- An absolute symbol (st_shndx = SHN_ABS) for the C8 witness. -/
def c8AbsSym : Symbol :=
  { name := "abs", file := some 0,
    esym := { name := "abs", sym := ⟨2, 1, 0, 0, 0xfff1, 123, 0⟩ }, global := true }

/-- An undefined global symbol that matched no definition (defining file
    absent after resolution). -/
def c3UnresolvedSym : Symbol :=
  { name := "missing", file := none,
    esym := { name := "missing", sym := ⟨3, 1, 0, 0, 0, 0, 0⟩ }, global := true }

/-- Input section carrying one PC32 relocation against the unresolved
    symbol, for the C3 counterexample. -/
def c3Isec : InputSection :=
  { id := 9, elf_section := { name := ".text", sh_type := 1, sh_flags := 6,
                              sh_size := 16, sh_addralign := 16, data := [] },
    elf_relas := [⟨⟨4, 2, -4⟩, c3UnresolvedSym⟩],
    offset := some 0x1000, output_section := some 0 }

/-- Object file owning `c3Isec`. -/
def c3File : ObjectFile :=
  { id := 0, first_global := 1, elf_symbols := [],
    input_sections := [some 9], symbols := [] }

/-- Linker state for the C3 counterexample. -/
def c3Linker : Linker :=
  { files := [c3File], isecs := [c3Isec], osecs := [],
    chunks := [OutputChunk.Section 0
      ⟨{ Shdr.zero with sh_type := 1, sh_flags := 6, sh_addr := 0x401000,
                        sh_offset := 0x1000, sh_addralign := 16 }, some 1⟩] }

/-! ### Theorems -/

/-- C10: registering a global symbol whose ELF record is undefined leaves
    the global symbol table completely unchanged: `add_global_symbol`
    returns the very same table (and logs nothing), so no entry is
    inserted, replaced, or removed for any name. -/
theorem c10_undefined_global_noop (t : SymTable) (sym : Symbol)
    (hg : sym.is_global = true) (hu : sym.esym.sym.is_undefined = true) :
    add_global_symbol t sym = some (t, []) := by
  simp [add_global_symbol, hg, hu]

/-- Witness for C10 at a concrete undefined global symbol and table. -/
theorem c10_undefined_global_noop_witness :
    add_global_symbol [("x", mainSymA)] undefSym = some ([("x", mainSymA)], []) :=
  c10_undefined_global_noop _ _ (by decide) (by decide)

/-- C1 counterexample: with a non-weak definition of `main` already in the
    table, registering a second non-weak definition logs the duplicate
    error but REPLACES the table entry: the lookup afterwards returns the
    second-seen symbol, not the incumbent, contradicting the claim that
    the entry is unchanged and the first-seen definition wins. -/
theorem c1_counterexample :
    (add_global_symbol [("main", mainSymA)] mainSymB).map (fun r => (r.1.get "main", r.2))
      = some (some mainSymB, [LogMsg.errorDuplicate "main"])
    ∧ mainSymB ≠ mainSymA := by
  constructor
  · rfl
  · decide

/-- C1 (amended): when the global table already holds a non-weak
    definition under the same name, the registration logs a duplicate
    error but still replaces the table entry with the new symbol — the
    last-seen non-weak definition wins, so later lookups under that name
    return the newly registered symbol. -/
theorem c1_duplicate_nonweak_replaces (t : SymTable) (sym dup : Symbol)
    (hg : sym.is_global = true) (hd : sym.esym.sym.is_undefined = false)
    (hdup : t.get sym.name = some dup) (hw : dup.esym.is_weak = false) :
    add_global_symbol t sym
      = some (t.insert sym.name sym, [LogMsg.errorDuplicate sym.name])
    ∧ (t.insert sym.name sym).get sym.name = some sym := by
  refine ⟨?_, ?_⟩
  · simp [add_global_symbol, hg, hd, hdup, hw]
  · simp [SymTable.insert, SymTable.get, List.find?]

/-- Witness for the amended C1 at a concrete duplicate registration. -/
theorem c1_duplicate_nonweak_replaces_witness :
    add_global_symbol [("main", mainSymA)] mainSymB
      = some ([("main", mainSymB), ("main", mainSymA)], [LogMsg.errorDuplicate "main"])
    ∧ SymTable.get [("main", mainSymB), ("main", mainSymA)] "main" = some mainSymB :=
  c1_duplicate_nonweak_replaces _ _ _ rfl rfl rfl rfl

/-- C5 counterexample: a relocation of type `R_X86_64_GOT32` does NOT get
    the warn-and-write-zero treatment: `relocation_value` falls through to
    the `todo!` arm and panics (aborting the link), and no warning is
    logged, contradicting the claim for this type. -/
theorem c5_counterexample :
    relocation_value 0 0 { r_offset := 0, r_type := R_X86_64_GOT32, r_addend := 0 }
      = RelocResult.panic
    ∧ relocation_value_log { r_offset := 0, r_type := R_X86_64_GOT32, r_addend := 0 } = [] := by
  constructor <;> rfl

/-- C5 (amended): for a relocation of type `R_X86_64_GOTTPOFF` or
    `R_X86_64_GOTPCRELX` the engine does not abort: it logs a warning and
    produces the 4-byte value 0; `R_X86_64_GOT32`, by contrast, is fatal
    (unimplemented-panic in `relocation_value`). -/
theorem c5_gottpoff_gotpcrelx_warn_zero (s ia : Nat) (rela : Rela)
    (h : rela.r_type = R_X86_64_GOTTPOFF ∨ rela.r_type = R_X86_64_GOTPCRELX) :
    relocation_value s ia rela = RelocResult.value 0
    ∧ relocation_size rela = some 4
    ∧ relocation_value_log rela = [LogMsg.warnUnsupportedReloc rela.r_type]
    ∧ (∀ rela' : Rela, rela'.r_type = R_X86_64_GOT32 →
        relocation_value s ia rela' = RelocResult.panic) := by
  refine ⟨?_, ?_, ?_, ?_⟩
  · rcases h with h | h <;>
      simp [relocation_value, h, R_X86_64_GOTTPOFF, R_X86_64_GOTPCRELX,
        R_X86_64_NONE, R_X86_64_PC32, R_X86_64_PLT32, R_X86_64_8, R_X86_64_16,
        R_X86_64_32, R_X86_64_32S, R_X86_64_64]
  · rcases h with h | h <;>
      simp [relocation_size, h, R_X86_64_GOTTPOFF, R_X86_64_GOTPCRELX,
        R_X86_64_NONE, R_X86_64_PC32, R_X86_64_PLT32, R_X86_64_8, R_X86_64_16,
        R_X86_64_32, R_X86_64_32S, R_X86_64_64, R_X86_64_GOT32]
  · rcases h with h | h <;> simp [relocation_value_log, h]
  · intro rela' h'
    simp [relocation_value, h', R_X86_64_GOT32, R_X86_64_GOTTPOFF, R_X86_64_GOTPCRELX,
      R_X86_64_NONE, R_X86_64_PC32, R_X86_64_PLT32, R_X86_64_8, R_X86_64_16,
      R_X86_64_32, R_X86_64_32S, R_X86_64_64]

/-- C2 (code evidence): `bin_input_sections` depends on the order in which
    the object files are yielded.  With the same two objects and the same
    input-section pool, iterating `[objA, objB]` bins the `.text` members
    as `[1, 2]` while iterating `[objB, objA]` bins them as `[2, 1]` — and
    `Context::files` is a `std::collections::HashMap` iterator, whose
    order is arbitrary rather than the argv insertion order the claim
    requires, so the chunk order and all derived offsets are not a
    function of the inputs alone. -/
theorem c2_bin_order_dependent :
    (bin_input_sections [objA, objB] [textIsecA, textIsecB]).map
        (fun st => st.osecs.map (fun o => (o.name, o.input_sections)))
      = some [(".text", [1, 2])]
    ∧ (bin_input_sections [objB, objA] [textIsecA, textIsecB]).map
        (fun st => st.osecs.map (fun o => (o.name, o.input_sections)))
      = some [(".text", [2, 1])] := by
  constructor <;> rfl

/-- Lookup after `set_isec_osec` returns the original entry with only its
    `output_section` field possibly updated. -/
theorem get_isec_set_osec (pool : IsecPool) (id osec m : Nat) :
    (pool.set_isec_osec id osec).get_isec m
      = (pool.get_isec m).map
          (fun s => if s.id = id then { s with output_section := some osec } else s) := by
  unfold IsecPool.set_isec_osec IsecPool.get_isec
  rw [List.find?_map]
  have hp : ((fun s : InputSection => decide (s.id = m)) ∘
      (fun s => if s.id = id then { s with output_section := some osec } else s))
      = (fun s : InputSection => decide (s.id = m)) := by
    funext s
    by_cases h : s.id = id <;> simp [h]
  rw [hp]

/-- `set_isec_osec` does not change the `elf_section` seen by lookups. -/
theorem get_isec_set_osec_fields (pool : IsecPool) (id osec m : Nat) (isec : InputSection)
    (h : pool.get_isec m = some isec) :
    ∃ isec', (pool.set_isec_osec id osec).get_isec m = some isec'
      ∧ isec'.elf_section = isec.elf_section := by
  rw [get_isec_set_osec, h]
  by_cases hh : isec.id = id <;> simp [hh]

/-- In a list of output sections with pairwise-distinct ids, two members
    with the same id are the same element. -/
theorem osec_eq_of_id_eq (l : List OutputSection)
    (hnd : (l.map OutputSection.id).Nodup) (a b : OutputSection)
    (ha : a ∈ l) (hb : b ∈ l) (hid : a.id = b.id) : a = b :=
  List.inj_on_of_nodup_map hnd ha hb hid

/-- `find?` by id returns the unique element with that id. -/
theorem find?_id_of_mem (l : List OutputSection) (s : OutputSection)
    (hnd : (l.map OutputSection.id).Nodup) (hm : s ∈ l) :
    l.find? (fun o => o.id = s.id) = some s := by
  cases hfind : l.find? (fun o => o.id = s.id) with
  | none =>
      exfalso
      have := List.find?_eq_none.mp hfind s hm
      simp at this
  | some t =>
      have hmt := List.mem_of_find?_eq_some hfind
      have hpt := List.find?_some hfind
      simp only [decide_eq_true_eq] at hpt
      exact congrArg some (osec_eq_of_id_eq l hnd t s hmt hm hpt)

/-- The invariant of the binning loop: every member recorded in an output
    section agrees with it on first-match canonical name, `sh_type` and
    `sh_flags`, provided output-section ids start fresh and pairwise
    distinct. -/
theorem bin_go_inv (ids : List Nat) (st' : BinState) : ∀ (st : BinState),
    (∀ o ∈ st.osecs, o.id < st.next_osec_id) →
    ((st.osecs.map OutputSection.id).Nodup) →
    (∀ o ∈ st.osecs, ∀ m ∈ o.input_sections, ∃ isec,
        st.isecs.get_isec m = some isec
        ∧ get_output_section_name isec.get_name = some o.name
        ∧ isec.elf_section.sh_type = o.sh_type
        ∧ isec.elf_section.sh_flags = o.sh_flags) →
    bin_go st ids = some st' →
    ∀ o ∈ st'.osecs, ∀ m ∈ o.input_sections, ∃ isec,
        st'.isecs.get_isec m = some isec
        ∧ get_output_section_name isec.get_name = some o.name
        ∧ isec.elf_section.sh_type = o.sh_type
        ∧ isec.elf_section.sh_flags = o.sh_flags := by
  induction ids with
  | nil =>
      intro st _ _ hmem h
      simp [bin_go] at h
      exact h ▸ hmem
  | cons i rest ih =>
      intro st hfresh hnd hmem h
      simp only [bin_go] at h
      cases h1 : st.isecs.get_isec i with
      | none => rw [h1] at h; simp at h
      | some isec =>
      rw [h1] at h
      simp only [Option.bind_eq_bind, Option.some_bind] at h
      cases h2 : get_output_section_name isec.get_name with
      | none => rw [h2] at h; simp at h
      | some nm =>
      rw [h2] at h
      simp only [Option.bind_eq_bind, Option.some_bind] at h
      cases h3 : st.osecs.find? (fun s => s.name = nm
          && s.sh_type = isec.elf_section.sh_type
          && s.sh_flags = isec.elf_section.sh_flags) with
      | some s0 =>
          have hs0mem := List.mem_of_find?_eq_some h3
          have hs0p : s0.name = nm ∧ s0.sh_type = isec.elf_section.sh_type
              ∧ s0.sh_flags = isec.elf_section.sh_flags := by
            have hx := List.find?_some h3
            simp at hx
            exact ⟨hx.1.1, hx.1.2, hx.2⟩
          have hg : get_or_create_output_section st.osecs st.next_osec_id nm
              isec.elf_section.sh_type isec.elf_section.sh_flags
              = (st.osecs, st.next_osec_id, s0.id) := by
            simp only [get_or_create_output_section]
            rw [h3]
          simp only [hg] at h
          have hfind : st.osecs.find? (fun o => o.id = s0.id) = some s0 :=
            find?_id_of_mem st.osecs s0 hnd hs0mem
          rw [hfind] at h
          simp only [Option.bind_eq_bind, Option.some_bind] at h
          refine ih _ ?_ ?_ ?_ h
          · intro o ho
            simp only [List.mem_map] at ho
            obtain ⟨o0, ho0, rfl⟩ := ho
            by_cases hid : o0.id = s0.id
            · simpa [hid] using hfresh o0 ho0
            · simpa [hid] using hfresh o0 ho0
          · have hids : (st.osecs.map (fun s =>
                if s.id = s0.id then { s with input_sections := s.input_sections ++ [i] }
                else s)).map OutputSection.id = st.osecs.map OutputSection.id := by
              rw [List.map_map]
              refine List.map_congr_left ?_
              intro o _
              by_cases hid : o.id = s0.id <;> simp [hid]
            rw [hids]
            exact hnd
          · intro o ho m hm
            simp only [List.mem_map] at ho
            obtain ⟨o0, ho0, rfl⟩ := ho
            by_cases hid : o0.id = s0.id
            · simp only [hid, if_true] at hm ⊢
              simp only [List.mem_append, List.mem_singleton] at hm
              rcases hm with hm | rfl
              · obtain ⟨is0, his0, hn0, ht0, hf0⟩ := hmem o0 ho0 m hm
                obtain ⟨is1, his1, hfld⟩ := get_isec_set_osec_fields st.isecs i s0.id m is0 his0
                exact ⟨is1, his1, by rw [InputSection.get_name, hfld]; exact hn0,
                  by rw [hfld]; exact ht0, by rw [hfld]; exact hf0⟩
              · have ho0eq : o0 = s0 := osec_eq_of_id_eq st.osecs hnd o0 s0 ho0 hs0mem hid
                obtain ⟨is1, his1, hfld⟩ := get_isec_set_osec_fields st.isecs m s0.id m isec h1
                refine ⟨is1, his1, ?_, ?_, ?_⟩
                · rw [InputSection.get_name] at h2 ⊢
                  rw [hfld, ho0eq, hs0p.1]
                  exact h2
                · rw [hfld, ho0eq]
                  exact hs0p.2.1.symm
                · rw [hfld, ho0eq]
                  exact hs0p.2.2.symm
            · simp only [hid, if_false] at hm ⊢
              obtain ⟨is0, his0, hn0, ht0, hf0⟩ := hmem o0 ho0 m hm
              obtain ⟨is1, his1, hfld⟩ := get_isec_set_osec_fields st.isecs i s0.id m is0 his0
              exact ⟨is1, his1, by rw [InputSection.get_name, hfld]; exact hn0,
                by rw [hfld]; exact ht0, by rw [hfld]; exact hf0⟩
      | none =>
          have hg : get_or_create_output_section st.osecs st.next_osec_id nm
              isec.elf_section.sh_type isec.elf_section.sh_flags
              = (st.osecs ++ [⟨st.next_osec_id, nm, [], isec.elf_section.sh_type,
                  isec.elf_section.sh_flags⟩], st.next_osec_id + 1, st.next_osec_id) := by
            simp only [get_or_create_output_section]
            rw [h3]
          simp only [hg] at h
          have hfreshid : ∀ o ∈ st.osecs, o.id ≠ st.next_osec_id :=
            fun o ho => Nat.ne_of_lt (hfresh o ho)
          have hfind : (st.osecs ++ [(⟨st.next_osec_id, nm, [], isec.elf_section.sh_type,
              isec.elf_section.sh_flags⟩ : OutputSection)]).find?
                (fun o => o.id = st.next_osec_id)
              = some ⟨st.next_osec_id, nm, [], isec.elf_section.sh_type,
                  isec.elf_section.sh_flags⟩ := by
            rw [List.find?_append]
            have h5 : st.osecs.find? (fun o => o.id = st.next_osec_id) = none := by
              rw [List.find?_eq_none]
              intro o ho
              simp [hfreshid o ho]
            rw [h5]
            simp [List.find?]
          rw [hfind] at h
          simp only [Option.bind_eq_bind, Option.some_bind] at h
          refine ih _ ?_ ?_ ?_ h
          · intro o ho
            simp only [List.mem_map, List.mem_append, List.mem_singleton] at ho
            obtain ⟨o0, ho0 | rfl, rfl⟩ := ho
            · have hlt := hfresh o0 ho0
              by_cases hid : o0.id = st.next_osec_id
              · exact absurd hid (hfreshid o0 ho0)
              · simpa [hid] using Nat.lt_succ_of_lt hlt
            · simp
          · have hids : ((st.osecs ++ [(⟨st.next_osec_id, nm, [],
                isec.elf_section.sh_type, isec.elf_section.sh_flags⟩ : OutputSection)]).map
                  (fun s => if s.id = st.next_osec_id then
                    { s with input_sections := s.input_sections ++ [i] } else s)).map
                  OutputSection.id
                = (st.osecs ++ [(⟨st.next_osec_id, nm, [],
                    isec.elf_section.sh_type, isec.elf_section.sh_flags⟩ :
                      OutputSection)]).map OutputSection.id := by
              rw [List.map_map]
              refine List.map_congr_left ?_
              intro o _
              by_cases hid : o.id = st.next_osec_id <;> simp [hid]
            rw [hids, List.map_append, List.nodup_append]
            refine ⟨hnd, by simp, ?_⟩
            intro x hx1 hx2
            simp only [List.mem_map] at hx1
            obtain ⟨o0, ho0, rfl⟩ := hx1
            simp only [List.map_cons, List.map_nil, List.mem_singleton] at hx2
            exact hfreshid o0 ho0 hx2
          · intro o ho m hm
            simp only [List.mem_map, List.mem_append, List.mem_singleton] at ho
            obtain ⟨o0, ho0 | rfl, rfl⟩ := ho
            · by_cases hid : o0.id = st.next_osec_id
              · exact absurd hid (hfreshid o0 ho0)
              · simp only [hid, if_false] at hm ⊢
                obtain ⟨is0, his0, hn0, ht0, hf0⟩ := hmem o0 ho0 m hm
                obtain ⟨is1, his1, hfld⟩ :=
                  get_isec_set_osec_fields st.isecs i st.next_osec_id m is0 his0
                exact ⟨is1, his1, by rw [InputSection.get_name, hfld]; exact hn0,
                  by rw [hfld]; exact ht0, by rw [hfld]; exact hf0⟩
            · simp only [List.nil_append] at hm ⊢
              simp at hm ⊢
              subst hm
              obtain ⟨is1, his1, hfld⟩ :=
                get_isec_set_osec_fields st.isecs m st.next_osec_id m isec h1
              refine ⟨is1, his1, ?_, ?_, ?_⟩
              · rw [InputSection.get_name] at h2 ⊢
                rw [hfld]
                exact h2
              · rw [hfld]
              · rw [hfld]


/-- C4 counterexample: an input section named `.data.rel.ro` is NOT merged
    into an output section named `.data.rel.ro`: the binner scans the ten
    canonical names in their fixed order and `.data` matches first (via
    the `.data.` prefix rule), so the section lands in output `.data`;
    likewise `.bss.rel.ro` matches `.bss` first. -/
theorem c4_counterexample :
    get_output_section_name ".data.rel.ro" = some ".data"
    ∧ get_output_section_name ".bss.rel.ro" = some ".bss"
    ∧ (bin_input_sections [objC] [dataRelRoIsec]).map
        (fun st => st.osecs.map (fun o => (o.name, o.input_sections)))
      = some [(".data", [3])]
    ∧ (".data" : String) ≠ ".data.rel.ro" := by
  refine ⟨rfl, rfl, rfl, by decide⟩

/-- C4 (amended): binning assigns each retained InputSection to the
    OutputSection named by the FIRST canonical name, in the fixed ten-name
    list order, that the input name equals or extends with `"N."`; in
    particular `.data.rel.ro` is merged into `.data` and `.bss.rel.ro`
    into `.bss` (because `.data` and `.bss` come earlier in the list).
    Every member of an OutputSection agrees with it on that first-match
    canonical name, on `sh_type` and on `sh_flags`, and a section whose
    name matches no canonical name is a fatal error (the binning pass
    panics). -/
theorem c4_bin_first_match (files : List ObjectFile) (pool : IsecPool) (st' : BinState)
    (h : bin_input_sections files pool = some st') :
    (∀ o ∈ st'.osecs, ∀ m ∈ o.input_sections, ∃ isec,
        st'.isecs.get_isec m = some isec
        ∧ get_output_section_name isec.get_name = some o.name
        ∧ isec.elf_section.sh_type = o.sh_type
        ∧ isec.elf_section.sh_flags = o.sh_flags)
    ∧ get_output_section_name ".data.rel.ro" = some ".data"
    ∧ get_output_section_name ".bss.rel.ro" = some ".bss"
    ∧ (∀ (st : BinState) (i : Nat) (isec : InputSection) (ids : List Nat),
        st.isecs.get_isec i = some isec →
        get_output_section_name isec.get_name = none →
        bin_go st (i :: ids) = none) := by
  refine ⟨?_, rfl, rfl, ?_⟩
  · exact bin_go_inv _ _ _ (by simp) (by simp) (by simp) h
  · intro st i isec ids h1 h2
    simp [bin_go, h1, h2]

/-- Witness for the amended C4 at a concrete binning run. -/
theorem c4_bin_first_match_witness :
    (∀ o ∈ ({ isecs := [{ dataRelRoIsec with output_section := some 0 }],
              osecs := [{ id := 0, name := ".data", input_sections := [3],
                          sh_type := 1, sh_flags := 3 }],
              next_osec_id := 1, chunks := [0] } : BinState).osecs,
      ∀ m ∈ o.input_sections, ∃ isec,
        ({ isecs := [{ dataRelRoIsec with output_section := some 0 }],
           osecs := [{ id := 0, name := ".data", input_sections := [3],
                       sh_type := 1, sh_flags := 3 }],
           next_osec_id := 1, chunks := [0] } : BinState).isecs.get_isec m = some isec
        ∧ get_output_section_name isec.get_name = some o.name
        ∧ isec.elf_section.sh_type = o.sh_type
        ∧ isec.elf_section.sh_flags = o.sh_flags)
    ∧ get_output_section_name ".data.rel.ro" = some ".data"
    ∧ get_output_section_name ".bss.rel.ro" = some ".bss"
    ∧ (∀ (st : BinState) (i : Nat) (isec : InputSection) (ids : List Nat),
        st.isecs.get_isec i = some isec →
        get_output_section_name isec.get_name = none →
        bin_go st (i :: ids) = none) :=
  c4_bin_first_match [objC] [dataRelRoIsec] _ rfl

/-- Witness for the amended C5 at a concrete GOTTPOFF relocation. -/
theorem c5_gottpoff_gotpcrelx_warn_zero_witness :
    relocation_value 3 5 { r_offset := 0, r_type := 22, r_addend := 0 }
      = RelocResult.value 0
    ∧ relocation_size { r_offset := 0, r_type := 22, r_addend := (0 : Int) } = some 4
    ∧ relocation_value_log { r_offset := 0, r_type := 22, r_addend := (0 : Int) }
      = [LogMsg.warnUnsupportedReloc 22]
    ∧ (∀ rela' : Rela, rela'.r_type = R_X86_64_GOT32 →
        relocation_value 3 5 rela' = RelocResult.panic) :=
  c5_gottpoff_gotpcrelx_warn_zero 3 5 _ (Or.inl rfl)

/-! Arithmetic lemmas for the layout congruence invariant. -/

theorem land_mod_two_pow (x y k : Nat) :
    Nat.land x y % 2 ^ k = Nat.land (x % 2 ^ k) (y % 2 ^ k) := by
  apply Nat.eq_of_testBit_eq
  intro i
  show ((x &&& y) % 2 ^ k).testBit i = ((x % 2 ^ k) &&& (y % 2 ^ k)).testBit i
  simp only [Nat.testBit_mod_two_pow, Nat.testBit_land]
  by_cases h : i < k <;> simp [h]

theorem page_dvd_u64 : PAGE_SIZE ∣ U64LIM :=
  ⟨2 ^ 52, by norm_num [PAGE_SIZE, U64LIM]⟩

theorem mod_u64_mod_page (x : Nat) : x % U64LIM % PAGE_SIZE = x % PAGE_SIZE :=
  Nat.mod_mod_of_dvd x page_dvd_u64

theorem page_eq_two_pow : PAGE_SIZE = 2 ^ 12 := by norm_num [PAGE_SIZE]

theorem land64_mod_page (x y : Nat) :
    land64 x y % PAGE_SIZE = Nat.land (x % PAGE_SIZE) (y % PAGE_SIZE) := by
  unfold land64
  rw [page_eq_two_pow, land_mod_two_pow]
  rw [← page_eq_two_pow, mod_u64_mod_page, mod_u64_mod_page, page_eq_two_pow]

theorem add64_mod_page (x y : Nat) : add64 x y % PAGE_SIZE = (x + y) % PAGE_SIZE := by
  unfold add64
  exact mod_u64_mod_page _

theorem align_to_mod_page_congr (a : Nat) {x y : Nat}
    (h : x % PAGE_SIZE = y % PAGE_SIZE) :
    align_to x a % PAGE_SIZE = align_to y a % PAGE_SIZE := by
  unfold align_to
  rw [land64_mod_page, land64_mod_page, add64_mod_page, add64_mod_page]
  rw [Nat.add_mod x, Nat.add_mod y, h]

theorem align_to_page_aligned (x : Nat) : align_to x PAGE_SIZE % PAGE_SIZE = 0 := by
  unfold align_to
  rw [land64_mod_page]
  have h1 : not64 (sub64 PAGE_SIZE 1) % PAGE_SIZE = 0 := by decide
  rw [h1]
  exact Nat.and_zero _

theorem page_fix_congr (file_ofs vaddr : Nat) :
    page_fix file_ofs vaddr % PAGE_SIZE = vaddr % PAGE_SIZE := by
  unfold page_fix
  by_cases h1 : vaddr % PAGE_SIZE > file_ofs % PAGE_SIZE
  · simp only [h1, if_true]
    rw [add64_mod_page]
    simp only [PAGE_SIZE] at h1 ⊢
    omega
  · by_cases h2 : vaddr % PAGE_SIZE < file_ofs % PAGE_SIZE
    · simp only [h1, h2, if_false, if_true]
      rw [add64_mod_page]
      have h3 := align_to_page_aligned file_ofs
      simp only [PAGE_SIZE] at h2 h3 ⊢
      omega
    · simp only [h1, h2, if_false]
      simp only [PAGE_SIZE] at h1 h2 ⊢
      omega

theorem get_common_set_common (c : OutputChunk) (ci : ChunkInfo) :
    (c.set_common ci).get_common = ci := by
  cases c <;> rfl

/-- `set_offset` records exactly the given offset and never touches the
    chunk's flags. -/
theorem set_offset_spec (osecs : List OutputSection) (pool : IsecPool)
    (chunk : OutputChunk) (offset : Nat) (pool' : IsecPool) (chunk' : OutputChunk)
    (h : OutputChunk.set_offset osecs pool chunk offset = some (pool', chunk')) :
    chunk'.get_common.shdr.sh_offset = offset
    ∧ chunk'.get_common.shdr.sh_flags = chunk.get_common.shdr.sh_flags := by
  cases chunk with
  | Section id common =>
      simp only [OutputChunk.set_offset, Option.bind_eq_bind] at h
      cases h4 : osecs.find? (fun o => o.id = id) with
      | none => rw [h4] at h; simp at h
      | some osec =>
          rw [h4] at h
          simp only [Option.some_bind] at h
          cases h5 : set_isec_offsets pool osec.input_sections offset with
          | none => rw [h5] at h; simp at h
          | some pe =>
              obtain ⟨p2, e⟩ := pe
              rw [h5] at h
              simp only [Option.some_bind, Option.some_inj, Prod.mk.injEq] at h
              obtain ⟨-, rfl⟩ := h
              exact ⟨rfl, rfl⟩
  | ehdr common =>
      simp only [OutputChunk.set_offset, OutputChunk.set_common, OutputChunk.get_common,
        Option.some_inj, Prod.mk.injEq] at h
      obtain ⟨-, rfl⟩ := h
      exact ⟨rfl, rfl⟩
  | shdr common =>
      simp only [OutputChunk.set_offset, OutputChunk.set_common, OutputChunk.get_common,
        Option.some_inj, Prod.mk.injEq] at h
      obtain ⟨-, rfl⟩ := h
      exact ⟨rfl, rfl⟩
  | phdr common =>
      simp only [OutputChunk.set_offset, OutputChunk.set_common, OutputChunk.get_common,
        Option.some_inj, Prod.mk.injEq] at h
      obtain ⟨-, rfl⟩ := h
      exact ⟨rfl, rfl⟩
  | strtab common =>
      simp only [OutputChunk.set_offset, OutputChunk.set_common, OutputChunk.get_common,
        Option.some_inj, Prod.mk.injEq] at h
      obtain ⟨-, rfl⟩ := h
      exact ⟨rfl, rfl⟩
  | symtab common =>
      simp only [OutputChunk.set_offset, OutputChunk.set_common, OutputChunk.get_common,
        Option.some_inj, Prod.mk.injEq] at h
      obtain ⟨-, rfl⟩ := h
      exact ⟨rfl, rfl⟩
  | shstrtab common =>
      simp only [OutputChunk.set_offset, OutputChunk.set_common, OutputChunk.get_common,
        Option.some_inj, Prod.mk.injEq] at h
      obtain ⟨-, rfl⟩ := h
      exact ⟨rfl, rfl⟩

theorem record_addr_offset (c : OutputChunk) (v : Nat) :
    (layout_record_addr c v).get_common.shdr.sh_offset
      = c.get_common.shdr.sh_offset := by
  unfold layout_record_addr
  by_cases hA : Nat.land c.get_common.shdr.sh_flags SHF_ALLOC ≠ 0
  · rw [if_pos hA, get_common_set_common]
  · rw [if_neg hA]

theorem record_addr_flags (c : OutputChunk) (v : Nat) :
    (layout_record_addr c v).get_common.shdr.sh_flags
      = c.get_common.shdr.sh_flags := by
  unfold layout_record_addr
  by_cases hA : Nat.land c.get_common.shdr.sh_flags SHF_ALLOC ≠ 0
  · rw [if_pos hA, get_common_set_common]
  · rw [if_neg hA]

theorem record_addr_addr (c : OutputChunk) (v : Nat)
    (hA : Nat.land c.get_common.shdr.sh_flags SHF_ALLOC ≠ 0) :
    (layout_record_addr c v).get_common.shdr.sh_addr = v := by
  unfold layout_record_addr
  rw [if_pos hA, get_common_set_common]

/-- After one layout step, a chunk carrying `SHF_ALLOC` has its recorded
    file offset and virtual address congruent modulo the page size. -/
theorem layout_step_congr (osecs : List OutputSection) (pool : IsecPool)
    (chunk : OutputChunk) (f v : Nat) (pool' : IsecPool) (chunk' : OutputChunk)
    (f' v' : Nat)
    (h : layout_step osecs pool chunk f v = some (pool', chunk', f', v'))
    (halloc : Nat.land chunk'.get_common.shdr.sh_flags SHF_ALLOC ≠ 0) :
    chunk'.get_common.shdr.sh_offset % PAGE_SIZE
      = chunk'.get_common.shdr.sh_addr % PAGE_SIZE := by
  simp only [layout_step, Option.bind_eq_bind] at h
  cases h6 : chunk.set_offset osecs pool
      (align_to (page_fix f (if chunk.get_common.should_be_loaded
          then align_to v PAGE_SIZE else v)) chunk.get_common.shdr.sh_addralign) with
  | none => rw [h6] at h; simp at h
  | some pc =>
      obtain ⟨p1, c1⟩ := pc
      rw [h6] at h
      simp only [Option.some_bind, Option.some_inj, Prod.mk.injEq] at h
      obtain ⟨-, rfl, -, -⟩ := h
      obtain ⟨hsofs, hsflags⟩ := set_offset_spec _ _ _ _ _ _ h6
      rw [record_addr_flags] at halloc
      rw [record_addr_offset, record_addr_addr c1 _ halloc, hsofs]
      exact align_to_mod_page_congr _ (page_fix_congr f _)

/-- Every `SHF_ALLOC` chunk produced by the layout loop satisfies the
    page congruence. -/
theorem assign_go_congr (chunks : List OutputChunk) :
    ∀ (osecs : List OutputSection) (pool : IsecPool) (f v : Nat)
      (pool' : IsecPool) (chunks' : List OutputChunk) (n : Nat),
    assign_osec_offsets_go osecs pool chunks f v = some (pool', chunks', n) →
    ∀ c ∈ chunks', Nat.land c.get_common.shdr.sh_flags SHF_ALLOC ≠ 0 →
      c.get_common.shdr.sh_offset % PAGE_SIZE = c.get_common.shdr.sh_addr % PAGE_SIZE := by
  induction chunks with
  | nil =>
      intro osecs pool f v pool' chunks' n h c hc
      simp only [assign_osec_offsets_go, Option.some_inj, Prod.mk.injEq] at h
      obtain ⟨-, rfl, -⟩ := h
      simp at hc
  | cons chunk rest ih =>
      intro osecs pool f v pool' chunks' n h c hc
      simp only [assign_osec_offsets_go, Option.bind_eq_bind] at h
      cases h1 : layout_step osecs pool chunk f v with
      | none => rw [h1] at h; simp at h
      | some q =>
          obtain ⟨p1, c1, f1, v1⟩ := q
          rw [h1] at h
          simp only [Option.some_bind] at h
          cases h2 : assign_osec_offsets_go osecs p1 rest f1 v1 with
          | none => rw [h2] at h; simp at h
          | some q2 =>
              obtain ⟨p2, rest', fin⟩ := q2
              rw [h2] at h
              simp only [Option.some_bind, Option.some_inj, Prod.mk.injEq] at h
              obtain ⟨-, rfl, -⟩ := h
              rcases List.mem_cons.mp hc with rfl | hc'
              · exact fun halloc => layout_step_congr _ _ _ _ _ _ _ _ _ h1 halloc
              · exact ih _ _ _ _ _ _ _ h2 c hc'

/-- C7: after the layout pass (`assign_osec_offsets`) over any chunk list,
    every chunk whose flags include `SHF_ALLOC` satisfies
    `sh_offset mod PAGE_SIZE = sh_addr mod PAGE_SIZE` (PAGE_SIZE = 0x1000). -/
theorem c7_layout_page_congruence (image_base : Nat) (osecs : List OutputSection)
    (pool : IsecPool) (chunks : List OutputChunk) (pool' : IsecPool)
    (chunks' : List OutputChunk) (n : Nat)
    (h : assign_osec_offsets image_base osecs pool chunks = some (pool', chunks', n))
    (c : OutputChunk) (hc : c ∈ chunks')
    (halloc : Nat.land c.get_common.shdr.sh_flags SHF_ALLOC ≠ 0) :
    c.get_common.shdr.sh_offset % PAGE_SIZE = c.get_common.shdr.sh_addr % PAGE_SIZE := by
  exact assign_go_congr chunks osecs pool 0 image_base pool' chunks' n h c hc halloc

/-! Lemmas about the member-offset walk (for C9). -/

theorem get_isec_id (pool : IsecPool) (m : Nat) (s : InputSection)
    (h : pool.get_isec m = some s) : s.id = m := by
  have := List.find?_some h
  simpa using this

theorem get_isec_set_offset (pool : IsecPool) (id o m : Nat) :
    (pool.set_isec_offset id o).get_isec m
      = (pool.get_isec m).map
          (fun s => if s.id = id then { s with offset := some o } else s) := by
  unfold IsecPool.set_isec_offset IsecPool.get_isec
  rw [List.find?_map]
  have hp : ((fun s : InputSection => decide (s.id = m)) ∘
      (fun s => if s.id = id then { s with offset := some o } else s))
      = (fun s : InputSection => decide (s.id = m)) := by
    funext s
    by_cases h : s.id = id <;> simp [h]
  rw [hp]

theorem get_isec_set_offset_ne (pool : IsecPool) (id o m : Nat) (hne : id ≠ m) :
    (pool.set_isec_offset id o).get_isec m = pool.get_isec m := by
  rw [get_isec_set_offset]
  cases hfind : pool.get_isec m with
  | none => rfl
  | some s =>
      have hid := get_isec_id pool m s hfind
      have hmi : ¬ (s.id = id) := by
        rw [hid]
        exact fun hc => hne hc.symm
      simp [hmi]

theorem member_sizes_set_offset (pool : IsecPool) (id o : Nat) (ids : List Nat) :
    member_sizes (pool.set_isec_offset id o) ids = member_sizes pool ids := by
  unfold member_sizes
  refine List.map_congr_left ?_
  intro i _
  rw [get_isec_set_offset]
  cases hfind : pool.get_isec i with
  | none => rfl
  | some s => by_cases h : s.id = id <;> simp [h, InputSection.get_size]

theorem set_isec_offsets_untouched (members : List Nat) :
    ∀ (pool : IsecPool) (ofs : Nat) (pool' : IsecPool) (endo m : Nat),
    set_isec_offsets pool members ofs = some (pool', endo) →
    m ∉ members →
    pool'.get_isec m = pool.get_isec m := by
  induction members with
  | nil =>
      intro pool ofs pool' endo m h _
      simp only [set_isec_offsets, Option.some_inj, Prod.mk.injEq] at h
      rw [← h.1]
  | cons hd rest ih =>
      intro pool ofs pool' endo m h hm
      simp only [set_isec_offsets, Option.bind_eq_bind] at h
      cases h1 : pool.get_isec hd with
      | none => rw [h1] at h; simp at h
      | some isec =>
          rw [h1] at h
          simp only [Option.some_bind] at h
          have hne : hd ≠ m := fun hc => hm (hc ▸ List.mem_cons_self hd rest)
          rw [ih _ _ _ _ _ h (fun hc => hm (List.mem_cons_of_mem hd hc))]
          exact get_isec_set_offset_ne pool hd ofs m hne

/-- The member walk records strictly consecutive offsets and ends at the
    starting offset plus the total size. -/
theorem set_isec_offsets_spec (members : List Nat) :
    ∀ (pool : IsecPool) (ofs : Nat) (pool' : IsecPool) (endo : Nat),
    set_isec_offsets pool members ofs = some (pool', endo) →
    members.Nodup →
    ofs + (member_sizes pool members).sum < U64LIM →
    (∀ k (hk : k < members.length),
       pool'.get_isec (members.get ⟨k, hk⟩)
         = (pool.get_isec (members.get ⟨k, hk⟩)).map
             (fun s => { s with offset := some (ofs + ((member_sizes pool members).take k).sum) }))
    ∧ endo = ofs + (member_sizes pool members).sum := by
  induction members with
  | nil =>
      intro pool ofs pool' endo h _ _
      simp only [set_isec_offsets, Option.some_inj, Prod.mk.injEq] at h
      refine ⟨fun k hk => absurd hk (by simp), ?_⟩
      simp [member_sizes, ← h.2]
  | cons hd rest ih =>
      intro pool ofs pool' endo h hnd hov
      simp only [set_isec_offsets, Option.bind_eq_bind] at h
      cases h1 : pool.get_isec hd with
      | none => rw [h1] at h; simp at h
      | some isec =>
          rw [h1] at h
          simp only [Option.some_bind] at h
          have hsizes : member_sizes pool (hd :: rest)
              = isec.get_size :: member_sizes pool rest := by
            simp [member_sizes, h1]
          have hsum : (member_sizes pool (hd :: rest)).sum
              = isec.get_size + (member_sizes pool rest).sum := by
            rw [hsizes]; simp
          have hadd : add64 ofs isec.get_size = ofs + isec.get_size := by
            unfold add64
            exact Nat.mod_eq_of_lt (by omega)
          rw [hadd] at h
          have hm : hd ∉ rest := (List.nodup_cons.mp hnd).1
          have hsz1 : member_sizes (pool.set_isec_offset hd ofs) rest
              = member_sizes pool rest := member_sizes_set_offset pool hd ofs rest
          have hov' : ofs + isec.get_size
              + (member_sizes (pool.set_isec_offset hd ofs) rest).sum < U64LIM := by
            rw [hsz1]; omega
          obtain ⟨hks, hend⟩ := ih _ _ _ _ h (List.nodup_cons.mp hnd).2 hov'
          constructor
          · intro k hk
            cases k with
            | zero =>
                have hget : (hd :: rest).get ⟨0, hk⟩ = hd := rfl
                rw [hget]
                rw [set_isec_offsets_untouched rest _ _ _ _ hd h hm]
                rw [get_isec_set_offset, h1]
                have hid := get_isec_id pool hd isec h1
                simp [hid, hsizes]
            | succ k =>
                have hget : (hd :: rest).get ⟨k + 1, hk⟩
                    = rest.get ⟨k, Nat.lt_of_succ_lt_succ hk⟩ := rfl
                rw [hget]
                have hkk := hks k (Nat.lt_of_succ_lt_succ hk)
                rw [hkk]
                have hne : hd ≠ rest.get ⟨k, Nat.lt_of_succ_lt_succ hk⟩ := by
                  intro hc
                  exact hm (hc ▸ List.get_mem rest _ _)
                rw [get_isec_set_offset_ne pool hd ofs _ hne]
                rw [hsz1, hsizes]
                have : ofs + isec.get_size
                    + ((member_sizes pool rest).take k).sum
                    = ofs + ((isec.get_size :: member_sizes pool rest).take (k + 1)).sum := by
                  simp [List.take_succ_cons]
                  omega
                rw [this]
          · rw [hend, hsz1, hsum]
            omega

/-- Witness for C7 at a concrete two-chunk layout run: the allocated
    chunk lands at file offset 0x1000 and address 0x401000, congruent
    modulo 0x1000. -/
theorem c7_layout_page_congruence_witness :
    c7OutStrtab.get_common.shdr.sh_offset % PAGE_SIZE
      = c7OutStrtab.get_common.shdr.sh_addr % PAGE_SIZE :=
  c7_layout_page_congruence 0x400000 [] [] c7Chunks [] [c7OutEhdr, c7OutStrtab] 4106
    (by decide) c7OutStrtab (by decide) (by decide)

/-- C9: the member walk of `OutputChunk::set_offset` gives the members of
    a SectionChunk consecutive file offsets starting at the chunk offset,
    each advancing by the member's `sh_size` (`get_size` reads the header
    size even when the stored bytes are shorter, as for bss/tbss); the
    offset reached equals the start plus the sum of the member sizes, so
    the recorded `sh_size` (`sub64 end start`) equals that sum; and
    `InputSection::copy_buf` skips the memcpy when the data is empty,
    leaving the buffer unchanged. -/
theorem c9_member_offsets_and_sizes
    (pool : IsecPool) (members : List Nat) (ofs : Nat) (pool' : IsecPool) (endo : Nat)
    (h : set_isec_offsets pool members ofs = some (pool', endo))
    (hnd : members.Nodup)
    (hov : ofs + (member_sizes pool members).sum < U64LIM) :
    (∀ k (hk : k < members.length),
       pool'.get_isec (members.get ⟨k, hk⟩)
         = (pool.get_isec (members.get ⟨k, hk⟩)).map
             (fun s => { s with offset := some (ofs + ((member_sizes pool members).take k).sum) }))
    ∧ endo = ofs + (member_sizes pool members).sum
    ∧ sub64 endo ofs = (member_sizes pool members).sum
    ∧ (∀ (isec : InputSection) (buf : List Nat) (o : Nat),
        isec.elf_section.data = [] → isec.offset = some o →
        isec.copy_buf buf = some buf) := by
  obtain ⟨h1, h2⟩ := set_isec_offsets_spec members pool ofs pool' endo h hnd hov
  refine ⟨h1, h2, ?_, ?_⟩
  · rw [h2]
    unfold sub64
    have hofs : ofs < U64LIM := by omega
    have hS : (member_sizes pool members).sum < U64LIM := by omega
    have e1 : (ofs + (member_sizes pool members).sum) % U64LIM
        = ofs + (member_sizes pool members).sum := Nat.mod_eq_of_lt hov
    have e2 : ofs % U64LIM = ofs := Nat.mod_eq_of_lt hofs
    rw [e1, e2]
    have e3 : ofs + (member_sizes pool members).sum + (U64LIM - ofs)
        = U64LIM + (member_sizes pool members).sum := by omega
    rw [e3, Nat.add_mod_left]
    exact Nat.mod_eq_of_lt hS
  · intro isec buf o hdata hofs
    simp [InputSection.copy_buf, hofs, hdata]

/-- Witness for C9 at a concrete two-member walk. -/
theorem c9_member_offsets_and_sizes_witness :
    (c9PoolAfter.get_isec 2
       = (IsecPool.get_isec [textIsecA, textIsecB] 2).map
           (fun s => { s with offset := some (4096 + ((member_sizes [textIsecA, textIsecB] [1, 2]).take 1).sum) }))
    ∧ (4120 : Nat) = 4096 + (member_sizes [textIsecA, textIsecB] [1, 2]).sum
    ∧ sub64 4120 4096 = (member_sizes [textIsecA, textIsecB] [1, 2]).sum
    ∧ InputSection.copy_buf { textIsecA with offset := some 0 } [0, 0] = some [0, 0] := by
  have H := c9_member_offsets_and_sizes [textIsecA, textIsecB] [1, 2] 4096 c9PoolAfter 4120
    (by decide) (by decide) (by decide)
  exact ⟨H.1 1 (by decide), H.2.1, H.2.2.1, H.2.2.2 _ [0, 0] 0 rfl rfl⟩

theorem add64_eq_of_lt (x y : Nat) (h : x + y < U64LIM) : add64 x y = x + y :=
  Nat.mod_eq_of_lt h

theorem sub64_eq_of_le (x y : Nat) (hx : x < U64LIM) (hyx : y ≤ x) :
    sub64 x y = x - y := by
  unfold sub64
  have hy : y < U64LIM := Nat.lt_of_le_of_lt hyx hx
  rw [Nat.mod_eq_of_lt hx, Nat.mod_eq_of_lt hy]
  have e : x + (U64LIM - y) = U64LIM + (x - y) := by omega
  rw [e, Nat.add_mod_left]
  exact Nat.mod_eq_of_lt (by omega)

/-- C8: a symbol emitted into `.symtab` that is defined in input section
    X of output section O and is not absolute gets
    `st_value = O.sh_addr + (X.sh_offset - O.sh_offset) + raw st_value`
    and `st_shndx = shndx(O)`; an absolute symbol keeps its `st_value`
    and `st_shndx` unchanged (only `st_name` is repointed). -/
theorem c8_symtab_entry (l : Linker) (sym : Symbol) (strN : Nat)
    (fid : Nat) (file : ObjectFile) (iid : Nat) (isec : InputSection)
    (oid : Nat) (common : ChunkInfo) (n xo : Nat)
    (habs : sym.esym.is_abs = false)
    (hcom : sym.esym.is_common = false)
    (hfile : sym.file = some fid)
    (hgf : l.get_file fid = some file)
    (hslot : file.input_sections.get? sym.esym.sym.st_shndx = some (some iid))
    (hisec : l.isecs.get_isec iid = some isec)
    (hxo : isec.offset = some xo)
    (hosec : isec.output_section = some oid)
    (hcommon : l.get_common_from_osec oid = some common)
    (hshndx : common.shndx = some n)
    (hn : n < 65536)
    (hole : common.shdr.sh_offset ≤ xo)
    (hxo2 : xo < U64LIM)
    (hov : common.shdr.sh_addr + (xo - common.shdr.sh_offset)
             + sym.esym.sym.st_value < U64LIM) :
    emit_symbol l sym strN
      = some { sym.esym.get with
          st_name := strN,
          st_value := common.shdr.sh_addr + (xo - common.shdr.sh_offset) + sym.esym.sym.st_value,
          st_shndx := n }
    ∧ (∀ (l2 : Linker) (sym2 : Symbol) (strN2 : Nat), sym2.esym.is_abs = true →
        emit_symbol l2 sym2 strN2 = some { sym2.esym.get with st_name := strN2 }) := by
  constructor
  · have hsub : sub64 xo common.shdr.sh_offset = xo - common.shdr.sh_offset :=
      sub64_eq_of_le _ _ hxo2 hole
    have hadd1 : add64 common.shdr.sh_addr (xo - common.shdr.sh_offset)
        = common.shdr.sh_addr + (xo - common.shdr.sh_offset) :=
      add64_eq_of_lt _ _ (by omega)
    have hadd2 : add64 (common.shdr.sh_addr + (xo - common.shdr.sh_offset))
        sym.esym.sym.st_value
        = common.shdr.sh_addr + (xo - common.shdr.sh_offset)
          + sym.esym.sym.st_value := add64_eq_of_lt _ _ (by omega)
    have hmod : n % 65536 = n := Nat.mod_eq_of_lt hn
    simp only [emit_symbol, habs, hcom, Bool.false_eq_true, if_false,
      Linker.get_symbol_addr, Linker.get_isec_addr, hfile, hgf, hslot, hisec,
      hxo, hosec, hcommon, hshndx, Option.getD_some, Option.bind_eq_bind,
      Option.some_bind, hsub, hadd1, hadd2, hmod]
  · intro l2 sym2 strN2 habs2
    simp only [emit_symbol, habs2, if_true]

/-- Witness for C8 at a concrete linker state: the emitted record of a
    symbol at raw st_value 4 in an input section at file offset 0x1010
    inside an output section at (sh_offset 0x1000, sh_addr 0x401000). -/
theorem c8_symtab_entry_witness :
    emit_symbol c8Linker c8Sym 1
      = some { c8Sym.esym.get with
          st_name := 1,
          st_value := c8Common.shdr.sh_addr + (0x1010 - c8Common.shdr.sh_offset) + c8Sym.esym.sym.st_value,
          st_shndx := 3 }
    ∧ emit_symbol c8Linker c8AbsSym 2 = some { c8AbsSym.esym.get with st_name := 2 } := by
  have H := c8_symtab_entry c8Linker c8Sym 1 0 c8File 5 c8Isec 7 c8Common 3 0x1010
    (by decide) (by decide) rfl (by decide) (by decide) (by decide) rfl rfl
    (by decide) rfl (by decide) (by decide) (by decide) (by decide)
  exact ⟨H.1, H.2 c8Linker c8AbsSym 2 (by decide)⟩

/-- A relocation whose symbol has no defining file panics anywhere in a
    relocation list: `get_symbol_addr` unwraps `symbol.file`. -/
theorem relas_values_panic (l : Linker) (ia : Nat) (isec : InputSection) :
    ∀ (relas : List ElfRela) (rel : ElfRela), rel ∈ relas → rel.symbol.file = none →
    relas_values l ia isec relas = none := by
  intro relas
  induction relas with
  | nil => intro rel h _; simp at h
  | cons hd rest ih =>
      intro rel hmem hfile
      rcases List.mem_cons.mp hmem with rfl | hmem'
      · simp [relas_values, Linker.get_symbol_addr, hfile]
      · simp only [relas_values, Option.bind_eq_bind]
        cases h1 : l.get_symbol_addr hd.symbol with
        | none => simp
        | some sa =>
            cases sa with
            | none => simp
            | some v =>
                simp only [Option.some_bind]
                cases h2 : relocation_value v ia hd.erela with
                | panic => simp
                | skip => exact ih rel hmem' hfile
                | value w =>
                    cases h3 : isec.offset with
                    | none => simp
                    | some o =>
                        cases h4 : relocation_size hd.erela with
                        | none => simp
                        | some sz => rw [ih rel hmem' hfile]; simp

/-- The panic propagates through a file's input-section slots. -/
theorem isecs_values_panic (l : Linker) (iid : Nat) (isec : InputSection)
    (rel : ElfRela)
    (hisec : l.isecs.get_isec iid = some isec)
    (hrel : rel ∈ isec.elf_relas) (hfile : rel.symbol.file = none) :
    ∀ (slots : List (Option Nat)), some iid ∈ slots →
    isecs_values l slots = none := by
  intro slots
  induction slots with
  | nil => intro h; simp at h
  | cons hd rest ih =>
      intro hmem
      rcases List.mem_cons.mp hmem with rfl | hmem'
      · simp only [isecs_values, Option.bind_eq_bind]
        cases h1 : l.get_isec_addr iid with
        | none => simp
        | some ia =>
            simp only [Option.some_bind, hisec]
            rw [relas_values_panic l ia isec isec.elf_relas rel hrel hfile]
            simp
      · cases hd with
        | none => exact ih hmem'
        | some iid2 =>
            simp only [isecs_values, Option.bind_eq_bind]
            cases h1 : l.get_isec_addr iid2 with
            | none => simp
            | some ia =>
                simp only [Option.some_bind]
                cases h2 : l.isecs.get_isec iid2 with
                | none => simp
                | some isec2 =>
                    simp only [Option.some_bind]
                    cases h3 : relas_values l ia isec2 isec2.elf_relas with
                    | none => simp
                    | some vals => rw [ih hmem']; simp

/-- The panic propagates through the file list. -/
theorem files_values_panic (l : Linker) (f : ObjectFile) (iid : Nat)
    (isec : InputSection) (rel : ElfRela)
    (hslot : some iid ∈ f.input_sections)
    (hisec : l.isecs.get_isec iid = some isec)
    (hrel : rel ∈ isec.elf_relas) (hfile : rel.symbol.file = none) :
    ∀ (files : List ObjectFile), f ∈ files →
    files_values l files = none := by
  intro files
  induction files with
  | nil => intro h; simp at h
  | cons hd rest ih =>
      intro hmem
      rcases List.mem_cons.mp hmem with rfl | hmem'
      · simp only [files_values, Option.bind_eq_bind]
        rw [isecs_values_panic l iid isec rel hisec hrel hfile f.input_sections hslot]
        simp
      · simp only [files_values, Option.bind_eq_bind]
        cases h1 : isecs_values l hd.input_sections with
        | none => simp
        | some vals => rw [ih hmem']; simp

/-- C3 (amended): the resolve pass merely warns about an unresolved
    symbol, but the relocation pass does NOT resolve the referring
    address to 0 — `get_symbol_addr` panics on the absent defining file
    (`symbol.file.unwrap()`), so `get_relocation_data` aborts the link
    whenever any relocation references an unresolved symbol. -/
theorem c3_unresolved_reloc_panics (l : Linker) (f : ObjectFile) (iid : Nat)
    (isec : InputSection) (rel : ElfRela)
    (hf : f ∈ l.files) (hslot : some iid ∈ f.input_sections)
    (hisec : l.isecs.get_isec iid = some isec)
    (hrel : rel ∈ isec.elf_relas) (hfile : rel.symbol.file = none) :
    l.get_symbol_addr rel.symbol = none ∧ l.get_relocation_data = none := by
  constructor
  · simp [Linker.get_symbol_addr, hfile]
  · exact files_values_panic l f iid isec rel hslot hisec hrel hfile l.files hf

/-- Witness for the amended C3 at the concrete unresolved state. -/
theorem c3_unresolved_reloc_panics_witness :
    c3Linker.get_symbol_addr c3UnresolvedSym = none
    ∧ c3Linker.get_relocation_data = none :=
  c3_unresolved_reloc_panics c3Linker c3File 9 c3Isec ⟨⟨4, 2, -4⟩, c3UnresolvedSym⟩
    (by decide) (by decide) (by decide) (by decide) rfl

/-- C3 counterexample: in a state holding one relocation whose symbol is
    an unresolved undefined global, `get_relocation_data` is `none` (a
    panic aborting the link) instead of producing a relocation that
    writes address 0: the claim that the link does not abort fails. -/
theorem c3_counterexample : c3Linker.get_relocation_data = none := by
  rfl

/-! Arithmetic lemmas for the relocation formulas (C6). -/

theorem i64ofU64_emod (s : Nat) (hs : s < U64LIM) :
    i64ofU64 s % (U64LIM : Int) = (s : Int) % (U64LIM : Int) := by
  unfold i64ofU64
  rw [Nat.mod_eq_of_lt hs]
  by_cases h : s < 2 ^ 63
  · rw [if_pos h, Int.emod_emod_of_dvd _ dvd_rfl]
  · rw [if_neg h]
    simp [Int.sub_emod, Int.emod_self, Int.emod_emod_of_dvd]

theorem u64ofI64_pc (s p : Nat) (a : Int) (hs : s < U64LIM) (hp : p < U64LIM) :
    u64ofI64 (i64ofU64 s + a - i64ofU64 p)
      = (((s : Int) + a - (p : Int)) % (U64LIM : Int)).toNat := by
  unfold u64ofI64
  congr 1
  conv_lhs => rw [Int.sub_emod, Int.add_emod, i64ofU64_emod s hs, i64ofU64_emod p hp,
    ← Int.add_emod, ← Int.sub_emod]

theorem u64ofI64_abs (s : Nat) (a : Int) (hs : s < U64LIM) :
    u64ofI64 (i64ofU64 s + a) = (((s : Int) + a) % (U64LIM : Int)).toNat := by
  unfold u64ofI64
  congr 1
  conv_lhs => rw [Int.add_emod, i64ofU64_emod s hs, ← Int.add_emod]

theorem relocation_value_pcrel (s ia : Nat) (rela : Rela) (hs : s < U64LIM)
    (ht : rela.r_type = R_X86_64_PC32 ∨ rela.r_type = R_X86_64_PLT32) :
    relocation_value s ia rela
      = RelocResult.value ((((s : Int) + rela.r_addend
          - ((add64 ia rela.r_offset : Nat) : Int)) % (U64LIM : Int)).toNat) := by
  have hp : add64 ia rela.r_offset < U64LIM := Nat.mod_lt _ (by norm_num [U64LIM])
  have hval := u64ofI64_pc s (add64 ia rela.r_offset) rela.r_addend hs hp
  rcases ht with ht | ht <;>
    simp [relocation_value, ht, R_X86_64_NONE, R_X86_64_PC32, R_X86_64_PLT32, hval]

theorem relocation_value_absolute (s ia : Nat) (rela : Rela) (hs : s < U64LIM)
    (ht : rela.r_type = R_X86_64_8 ∨ rela.r_type = R_X86_64_16
      ∨ rela.r_type = R_X86_64_32 ∨ rela.r_type = R_X86_64_32S
      ∨ rela.r_type = R_X86_64_64) :
    relocation_value s ia rela
      = RelocResult.value ((((s : Int) + rela.r_addend) % (U64LIM : Int)).toNat) := by
  have hval := u64ofI64_abs s rela.r_addend hs
  rcases ht with ht | ht | ht | ht | ht <;>
    simp [relocation_value, ht, R_X86_64_NONE, R_X86_64_PC32, R_X86_64_PLT32,
      R_X86_64_8, R_X86_64_16, R_X86_64_32, R_X86_64_32S, R_X86_64_64, hval]

theorem storeBytes_getD (buf : List Nat) :
    ∀ (ofs : Nat) (data : List Nat) (i : Nat),
    ofs + data.length ≤ buf.length → i < data.length →
    (storeBytes buf ofs data).getD (ofs + i) 0 = data.getD i 0 := by
  induction buf with
  | nil =>
      intro ofs data i hle hi
      simp only [List.length_nil, Nat.le_zero] at hle
      omega
  | cons b rest ih =>
      intro ofs data i hle hi
      cases ofs with
      | succ n =>
          show (b :: storeBytes rest n data).getD (n + 1 + i) 0 = data.getD i 0
          have he : n + 1 + i = (n + i) + 1 := by omega
          rw [he, List.getD_cons_succ]
          exact ih n data i (by simp only [List.length_cons] at hle; omega) hi
      | zero =>
          cases data with
          | nil => simp at hi
          | cons v vs =>
              show (v :: storeBytes rest 0 vs).getD (0 + i) 0 = (v :: vs).getD i 0
              cases i with
              | zero => simp
              | succ j =>
                  have he : 0 + (j + 1) = j + 1 := by omega
                  rw [he, List.getD_cons_succ, List.getD_cons_succ]
                  have := ih 0 vs j
                    (by simp only [List.length_cons] at hle ⊢; omega)
                    (by simp only [List.length_cons] at hi; omega)
                  simpa using this

theorem to_le_bytes_take_getD (v w i : Nat) (hiw : i < w) (hw8 : w ≤ 8) :
    ((to_le_bytes v).take w).getD i 0 = v / 256 ^ i % 256 := by
  unfold to_le_bytes
  rw [← List.map_take, List.take_range]
  have hww : w ⊓ 8 = w := by omega
  rw [hww]
  rw [List.getD_eq_getElem?_getD, List.getElem?_map, List.getElem?_range hiw]
  rfl

theorem to_le_bytes_take_length (v w : Nat) (hw8 : w ≤ 8) :
    ((to_le_bytes v).take w).length = w := by
  simp [to_le_bytes]
  omega

theorem relas_values_single (l : Linker) (ia : Nat) (isec : InputSection)
    (rela : Rela) (symb : Symbol) (S o v w : Nat)
    (hS : l.get_symbol_addr symb = some (some S))
    (ho : isec.offset = some o)
    (hv : relocation_value S ia rela = RelocResult.value v)
    (hw : relocation_size rela = some w) :
    relas_values l ia isec [⟨rela, symb⟩] = some [⟨add64 o rela.r_offset, v, w⟩] := by
  simp [relas_values, hS, ho, hv, hw]

theorem relocation_apply_single (buf : List Nat) (rv : RelValue)
    (hle : rv.file_ofs + rv.size ≤ buf.length) (h8 : rv.size ≤ 8) :
    relocation_apply buf [rv]
      = some (storeBytes buf rv.file_ofs ((to_le_bytes rv.value).take rv.size)) := by
  simp [relocation_apply, apply_rel, hle, h8]

theorem relocation_apply_single_getD (buf : List Nat) (rv : RelValue) (i : Nat)
    (hle : rv.file_ofs + rv.size ≤ buf.length) (h8 : rv.size ≤ 8) (hi : i < rv.size) :
    (relocation_apply buf [rv]).map (fun bb => bb.getD (rv.file_ofs + i) 0)
      = some (rv.value / 256 ^ i % 256) := by
  rw [relocation_apply_single buf rv hle h8, Option.map_some']
  have hlen : ((to_le_bytes rv.value).take rv.size).length = rv.size :=
    to_le_bytes_take_length rv.value rv.size h8
  have hsb := storeBytes_getD buf rv.file_ofs ((to_le_bytes rv.value).take rv.size) i
    (by rw [hlen]; exact hle) (by rw [hlen]; exact hi)
  rw [hsb, to_le_bytes_take_getD rv.value rv.size i hi h8]

/-- C6: for a PC-relative relocation (R_X86_64_PC32 / R_X86_64_PLT32)
    against a resolved symbol with final address S, the engine produces
    the value `S + A - P` (mod 2^64) with `A = r_addend` and
    `P = isec_addr + r_offset`, at width 4; for the absolute types
    R_X86_64_8/16/32/32S/64 it produces `S + A` (mod 2^64) at widths
    1/2/4/4/8; and the writer places the low `width` bytes of the
    little-endian encoding into the buffer at `isec.offset + r_offset`. -/
theorem c6_reloc_value_and_write (l : Linker) (isec_addr : Nat) (isec : InputSection)
    (rela : Rela) (symb : Symbol) (S o : Nat) (buf : List Nat)
    (hS : l.get_symbol_addr symb = some (some S))
    (hSlt : S < U64LIM)
    (ho : isec.offset = some o)
    (hbuf : o + rela.r_offset + 8 ≤ buf.length)
    (hof : o + rela.r_offset + 8 < U64LIM) :
    ((rela.r_type = R_X86_64_PC32 ∨ rela.r_type = R_X86_64_PLT32) →
      relas_values l isec_addr isec [⟨rela, symb⟩]
        = some [⟨o + rela.r_offset,
            reloc_pc_value S rela.r_addend (add64 isec_addr rela.r_offset), 4⟩]
      ∧ ∀ i, i < 4 →
          (relocation_apply buf [⟨o + rela.r_offset,
              reloc_pc_value S rela.r_addend (add64 isec_addr rela.r_offset), 4⟩]).map
            (fun bb => bb.getD (o + rela.r_offset + i) 0)
          = some (reloc_pc_value S rela.r_addend (add64 isec_addr rela.r_offset)
              / 256 ^ i % 256))
    ∧ (∀ w : Nat,
        ((rela.r_type = R_X86_64_8 ∧ w = 1) ∨ (rela.r_type = R_X86_64_16 ∧ w = 2)
          ∨ (rela.r_type = R_X86_64_32 ∧ w = 4) ∨ (rela.r_type = R_X86_64_32S ∧ w = 4)
          ∨ (rela.r_type = R_X86_64_64 ∧ w = 8)) →
      relas_values l isec_addr isec [⟨rela, symb⟩]
        = some [⟨o + rela.r_offset, reloc_abs_value S rela.r_addend, w⟩]
      ∧ ∀ i, i < w →
          (relocation_apply buf [⟨o + rela.r_offset,
              reloc_abs_value S rela.r_addend, w⟩]).map
            (fun bb => bb.getD (o + rela.r_offset + i) 0)
          = some (reloc_abs_value S rela.r_addend / 256 ^ i % 256)) := by
  have hadd : add64 o rela.r_offset = o + rela.r_offset :=
    add64_eq_of_lt _ _ (by omega)
  constructor
  · intro ht
    have hv : relocation_value S isec_addr rela
        = RelocResult.value (reloc_pc_value S rela.r_addend (add64 isec_addr rela.r_offset)) :=
      relocation_value_pcrel S isec_addr rela hSlt ht
    have hw : relocation_size rela = some 4 := by
      rcases ht with ht | ht <;>
        simp [relocation_size, ht, R_X86_64_NONE, R_X86_64_8, R_X86_64_16,
          R_X86_64_32, R_X86_64_32S, R_X86_64_64, R_X86_64_PC32, R_X86_64_GOT32,
          R_X86_64_PLT32]
    have h1 := relas_values_single l isec_addr isec rela symb S o _ 4 hS ho hv hw
    rw [hadd] at h1
    refine ⟨h1, ?_⟩
    intro i hi
    exact relocation_apply_single_getD buf
      ⟨o + rela.r_offset, reloc_pc_value S rela.r_addend (add64 isec_addr rela.r_offset), 4⟩
      i (by show o + rela.r_offset + 4 ≤ buf.length; omega) (by norm_num) hi
  · intro w ht
    have htype : rela.r_type = R_X86_64_8 ∨ rela.r_type = R_X86_64_16
        ∨ rela.r_type = R_X86_64_32 ∨ rela.r_type = R_X86_64_32S
        ∨ rela.r_type = R_X86_64_64 := by tauto
    have hv : relocation_value S isec_addr rela
        = RelocResult.value (reloc_abs_value S rela.r_addend) :=
      relocation_value_absolute S isec_addr rela hSlt htype
    have hw : relocation_size rela = some w := by
      rcases ht with ⟨ht, rfl⟩ | ⟨ht, rfl⟩ | ⟨ht, rfl⟩ | ⟨ht, rfl⟩ | ⟨ht, rfl⟩ <;>
        simp [relocation_size, ht, R_X86_64_NONE, R_X86_64_8, R_X86_64_16,
          R_X86_64_32, R_X86_64_32S, R_X86_64_64, R_X86_64_PC32, R_X86_64_GOT32,
          R_X86_64_PLT32]
    have hw8 : w ≤ 8 := by
      rcases ht with ⟨-, rfl⟩ | ⟨-, rfl⟩ | ⟨-, rfl⟩ | ⟨-, rfl⟩ | ⟨-, rfl⟩ <;> norm_num
    have h1 := relas_values_single l isec_addr isec rela symb S o _ w hS ho hv hw
    rw [hadd] at h1
    refine ⟨h1, ?_⟩
    intro i hi
    exact relocation_apply_single_getD buf
      ⟨o + rela.r_offset, reloc_abs_value S rela.r_addend, w⟩
      i (by show o + rela.r_offset + w ≤ buf.length; omega) hw8 hi

/-- Witness for C6: a concrete PC32 relocation at r_offset 0 in the
    section at file offset 0x1010, with symbol address 0x401014 and
    addend 0, patches value 4 into the buffer at offset 0x1010. -/
theorem c6_reloc_value_and_write_witness :
    relas_values c8Linker 0x401010 c8Isec [⟨⟨0, 2, 0⟩, c8Sym⟩]
      = some [⟨0x1010 + (0 : Nat), reloc_pc_value 0x401014 0 (add64 0x401010 0), 4⟩]
    ∧ (relocation_apply (List.replicate 4120 0)
        [⟨0x1010 + (0 : Nat), reloc_pc_value 0x401014 0 (add64 0x401010 0), 4⟩]).map
        (fun bb => bb.getD (0x1010 + (0 : Nat) + 0) 0)
      = some (reloc_pc_value 0x401014 0 (add64 0x401010 0) / 256 ^ 0 % 256) := by
  have H := c6_reloc_value_and_write c8Linker 0x401010 c8Isec ⟨0, 2, 0⟩ c8Sym
    0x401014 0x1010 (List.replicate 4120 0) (by decide) (by decide) rfl
    (by rw [List.length_replicate]; norm_num) (by decide)
  have H1 := H.1 (Or.inl rfl)
  exact ⟨H1.1, H1.2 0 (by norm_num)⟩

end Bold
